import Mathlib

/-!
# Verification of the ApeCode tool-calling core

Shallow embedding of the ApeCode coding agent (`src/apecode`): the tool
registry and its execution-safety gate (`tools.py`), the agent loop
(`agent.py`), subagent isolation (`subagents.py`), and the external tool
contribution paths (`plugins.py`, `mcp.py`).

Modelling conventions:
* Python `dict`s parsed from JSON are association lists; a `Json` inductive
  mirrors the values `json.loads` can produce (numbers are modelled as
  integers).
* `json.loads` itself is Python-stdlib code, so functions that receive an
  arguments *string* in Python receive the parse **outcome**
  (`Except String Json`) here; `json.JSONDecodeError` is the `.error` case.
* Exceptions are modelled with `Except`; a handler that faults both returns
  `.error` and the state it had mutated so far.
* The filesystem is modelled symlink-free, so `Path.resolve()` is lexical
  normalisation of `.`/`..` segments against an absolute base, and paths are
  lists of segments.  `expanduser` is the identity (no `~` in scope).
-/

/-- JSON values as produced by `json.loads` (numbers restricted to integers;
objects keep first occurrence of a key). -/
inductive Json where
  | null
  | bool (b : Bool)
  | num (n : Int)
  | str (s : String)
  | arr (items : List Json)
  | obj (fields : List (String × Json))

/-- `dict.get(key)` on a parsed JSON object: first binding of `key`. -/
def objGet (fields : List (String × Json)) (key : String) : Option Json :=
  (fields.find? (fun p => p.1 == key)).map (·.2)

/-- Python truthiness (`bool(x)`) of a parsed JSON value. -/
def Json.truthy : Json → Bool
  | .null => false
  | .bool b => b
  | .num n => decide (n ≠ 0)
  | .str s => !(s == "")
  | .arr items => !items.isEmpty
  | .obj fields => !fields.isEmpty

/-- A single-quote character, used by Python `repr` of strings. -/
def pyQuote : String := String.singleton (Char.ofNat 39)

/-- Python `str.strip()` (kernel-reducible counterpart of `String.trim`). -/
def pyStrip (s : String) : String :=
  String.mk (((s.data.dropWhile Char.isWhitespace).reverse.dropWhile Char.isWhitespace).reverse)

/-- Python slicing `s[:n]` (kernel-reducible counterpart of `String.take`). -/
def pyTake (s : String) (n : Nat) : String :=
  String.mk (s.data.take n)

mutual
/-- Python `str(x)` of a parsed JSON value. -/
def pyStr : Json → String
  | .null => "None"
  | .bool true => "True"
  | .bool false => "False"
  | .num n => toString n
  | .str s => s
  | .arr items => "[" ++ String.intercalate ", " (pyReprList items) ++ "]"
  | .obj fields => "\x7b" ++ String.intercalate ", " (pyReprFields fields) ++ "\x7d"

/-- Python `repr(x)` of a parsed JSON value (strings get quoted). -/
def pyRepr : Json → String
  | .str s => pyQuote ++ s ++ pyQuote
  | .null => "None"
  | .bool true => "True"
  | .bool false => "False"
  | .num n => toString n
  | .arr items => "[" ++ String.intercalate ", " (pyReprList items) ++ "]"
  | .obj fields => "\x7b" ++ String.intercalate ", " (pyReprFields fields) ++ "\x7d"

def pyReprList : List Json → List String
  | [] => []
  | j :: rest => pyRepr j :: pyReprList rest

def pyReprFields : List (String × Json) → List String
  | [] => []
  | (k, v) :: rest => (pyQuote ++ k ++ pyQuote ++ ": " ++ pyRepr v) :: pyReprFields rest
end

/-- Python `int(x)` on a parsed JSON value; `.error` is the raised
`TypeError`/`ValueError`. -/
def pyInt : Json → Except String Int
  | .num n => .ok n
  | .bool true => .ok 1
  | .bool false => .ok 0
  | .str s =>
    match (pyStrip s).toInt? with
    | some n => .ok n
    | none => .error ("invalid literal for int() with base 10: " ++ pyQuote ++ s ++ pyQuote)
  | .null => .error "int() argument must be a string, a bytes-like object or a real number, not NoneType"
  | .arr _ => .error "int() argument must be a string, a bytes-like object or a real number, not list"
  | .obj _ => .error "int() argument must be a string, a bytes-like object or a real number, not dict"

mutual
/-- `json.dumps` with default separators (string escaping not modelled; also
stands in for the `indent=2` pretty-printer, whose exact whitespace no claim
depends on). -/
def Json.dumps : Json → String
  | .null => "null"
  | .bool true => "true"
  | .bool false => "false"
  | .num n => toString n
  | .str s => "\"" ++ s ++ "\""
  | .arr items => "[" ++ String.intercalate ", " (Json.dumpsList items) ++ "]"
  | .obj fields => "\x7b" ++ String.intercalate ", " (Json.dumpsFields fields) ++ "\x7d"

def Json.dumpsList : List Json → List String
  | [] => []
  | j :: rest => Json.dumps j :: Json.dumpsList rest

def Json.dumpsFields : List (String × Json) → List String
  | [] => []
  | (k, v) :: rest => ("\"" ++ k ++ "\": " ++ Json.dumps v) :: Json.dumpsFields rest
end

/-! ## `tools.py`: sandbox modes, approval policies, tool context -/

/-- `SandboxMode` (tools.py:17-20). -/
inductive SandboxMode where
  | readOnly
  | workspaceWrite
  | dangerFullAccess
deriving DecidableEq

/-- `ApprovalPolicy` (tools.py:23-26). -/
inductive ApprovalPolicy where
  | onRequest
  | always
  | never
deriving DecidableEq

/-- One `{step, status}` entry of `ToolContext.plan`. -/
structure PlanItem where
  step : String
  status : String
deriving DecidableEq

/-- `ToolContext` (tools.py:37-50): `cwd` is already `expanduser().resolve()`d,
i.e. an absolute path given by its segments. -/
structure ToolContext where
  cwd : List String
  ask_approval : String → String → Bool
  sandbox_mode : SandboxMode
  approval_policy : ApprovalPolicy
  plan : List PlanItem

/-! ## `tools.py`: path resolution (`_is_within`, `ToolContext.resolve_path`) -/

/-- `_is_within` (tools.py:29-34): `target.relative_to(base)` succeeds exactly
when `base`'s segments are a prefix of `target`'s. -/
def _is_within (base target : List String) : Bool :=
  base.isPrefixOf target

/-- Split a character list on `/` (kernel-reducible counterpart of
`String.splitOn "/"`). -/
def splitSlash : List Char → List Char → List String
  | [], acc => [String.mk acc.reverse]
  | c :: rest, acc =>
    if c = '/' then String.mk acc.reverse :: splitSlash rest []
    else splitSlash rest (c :: acc)

/-- `pathlib.Path(raw)` parsing: absolute iff the text starts with `/`;
empty and single-dot components are dropped by `PurePath`. -/
def parseRawPath (raw : String) : Bool × List String :=
  (match raw.data with
    | '/' :: _ => true
    | _ => false,
   (splitSlash raw.data []).filter (fun seg => seg != "" && seg != "."))

/-- `Path.resolve()` on a symlink-free filesystem: fold the components onto an
absolute base, `..` dropping the last segment (the root is its own parent). -/
def normalizeSegs (base : List String) (segs : List String) : List String :=
  segs.foldl (fun acc seg => if seg = ".." then acc.dropLast else acc ++ [seg]) base

/-- The `candidate.resolve() if candidate.is_absolute() else
(self.cwd / candidate).resolve()` expression of tools.py:54. -/
def resolveAgainst (cwd : List String) (raw : String) : List String :=
  let (isAbs, segs) := parseRawPath raw
  if isAbs then normalizeSegs [] segs else normalizeSegs cwd segs

/-- `ToolContext.resolve_path` (tools.py:52-57). -/
def ToolContext.resolve_path (ctx : ToolContext) (raw_path : String) : Except String (List String) :=
  let resolved := resolveAgainst ctx.cwd raw_path
  if ctx.sandbox_mode ≠ SandboxMode.dangerFullAccess ∧ ¬ (_is_within ctx.cwd resolved = true) then
    .error ("path escapes workspace: " ++ raw_path)
  else
    .ok resolved

/-! ## `tools.py`: tools and the registry with its execution-safety gate -/

/-- What a tool handler produces over ambient state `σ`: the text it returned
(`.ok`) or the exception it raised (`.error`), together with the state as the
handler left it (side effects performed before a fault persist). -/
abbrev HandlerResult (σ : Type) := Except String String × σ

/-- `Tool` (tools.py:63-71); `σ` is the ambient mutable state a handler may
touch (filesystem, subprocesses, ...). -/
structure Tool (σ : Type) where
  name : String
  description : String
  parameters : Json
  handler : ToolContext → List (String × Json) → σ → HandlerResult σ
  mutating : Bool := false

/-- `self._tools[tool.name] = tool`: replace the binding if the key is
present, else append (Python dicts keep insertion order). -/
def insertTool {σ : Type} : List (String × Tool σ) → Tool σ → List (String × Tool σ)
  | [], t => [(t.name, t)]
  | (k, v) :: rest, t => if k = t.name then (k, t) :: rest else (k, v) :: insertTool rest t

/-- `self._tools.get(name)` (tools.py:106). -/
def lookupTool {σ : Type} (l : List (String × Tool σ)) (name : String) : Option (Tool σ) :=
  (l.find? (fun p => p.1 == name)).map (·.2)

/-- `ToolRegistry` (tools.py:74-79). -/
structure ToolRegistry (σ : Type) where
  context : ToolContext
  _tools : List (String × Tool σ)

/-- `ToolRegistry.register` (tools.py:81-82). -/
def ToolRegistry.register {σ : Type} (reg : ToolRegistry σ) (tool : Tool σ) : ToolRegistry σ :=
  { reg with _tools := insertTool reg._tools tool }

/-- Insert an entry into a name-sorted association list (model of Python's
`sorted`; registry keys are unique, so stability is immaterial). -/
def insertSorted {σ : Type} (x : String × Tool σ) : List (String × Tool σ) → List (String × Tool σ)
  | [] => [x]
  | y :: ys => if x.1 ≤ y.1 then x :: y :: ys else y :: insertSorted x ys

/-- `ToolRegistry.list_tools` (tools.py:84-86): tools sorted by name. -/
def ToolRegistry.list_tools {σ : Type} (reg : ToolRegistry σ) : List (Tool σ) :=
  (reg._tools.foldr insertSorted []).map (·.2)

/-- `ToolRegistry.list_tool_names` (tools.py:88-90). -/
def ToolRegistry.list_tool_names {σ : Type} (reg : ToolRegistry σ) : List String :=
  reg.list_tools.map (·.name)

/-- `ToolRegistry.as_openai_tools` (tools.py:92-103): the `(name, description,
parameters)` triples surfaced to the model. -/
def ToolRegistry.as_openai_tools {σ : Type} (reg : ToolRegistry σ) : List (String × String × Json) :=
  reg.list_tools.map (fun t => (t.name, t.description, t.parameters))

/-- Lines 129-132 of tools.py: invoke the handler, converting a raised
exception into a textual failure result. -/
def handlerDispatch {σ : Type} (tool : Tool σ) (ctx : ToolContext)
    (arguments : List (String × Json)) (s : σ) : String × σ :=
  match tool.handler ctx arguments s with
  | (.ok text, s') => (text, s')
  | (.error exc, s') => ("Tool execution failed: " ++ exc, s')

/-- `ToolRegistry.execute` (tools.py:105-132).  `arguments_json` is the
outcome of `json.loads(arguments_json or "\x7b\x7d")`. -/
def ToolRegistry.execute {σ : Type} (reg : ToolRegistry σ) (name : String)
    (arguments_json : Except String Json) (s : σ) : String × σ :=
  match lookupTool reg._tools name with
  | none => ("Unknown tool: " ++ name, s)
  | some tool =>
    match arguments_json with
    | .error exc => ("Invalid tool arguments JSON: " ++ exc, s)
    | .ok parsed =>
      match parsed with
      | .obj arguments =>
        if tool.mutating then
          if reg.context.sandbox_mode = SandboxMode.readOnly then
            ("blocked by sandbox policy: read-only", s)
          else if reg.context.approval_policy = ApprovalPolicy.never then
            ("blocked by approval policy: never", s)
          else if reg.context.approval_policy = ApprovalPolicy.onRequest then
            let preview := pyTake (Json.dumps (Json.obj arguments)) 600
            if reg.context.ask_approval name preview then
              handlerDispatch tool reg.context arguments s
            else
              ("Rejected by user.", s)
          else
            handlerDispatch tool reg.context arguments s
        else
          handlerDispatch tool reg.context arguments s
      | _ => ("Tool arguments must be a JSON object.", s)

/-- Replace the handler of the tool registered under `name`, used to state
that a blocked dispatch never invokes the handler (the result is the same for
every handler). -/
def withHandler {σ : Type} (reg : ToolRegistry σ) (name : String)
    (h : ToolContext → List (String × Json) → σ → HandlerResult σ) : ToolRegistry σ :=
  { reg with
    _tools := reg._tools.map (fun p => if p.1 = name then (p.1, { p.2 with handler := h }) else p) }

/-! ## `tools.py`: the `update_plan` handler -/

/-- Validation-and-normalisation loop of `_update_plan` (tools.py:271-281):
each item must be an object with a non-empty stripped `step` and a `status`
among `pending | in_progress | completed`; fails fast on the first bad item. -/
def updatePlanGo : List Json → List PlanItem → Except String (List PlanItem)
  | [], normalized => .ok normalized
  | item :: rest, normalized =>
    match item with
    | .obj fields =>
      let step := pyStrip (pyStr ((objGet fields "step").getD (Json.str "")))
      let status := pyStrip (pyStr ((objGet fields "status").getD (Json.str "")))
      if step = "" then
        .error "plan step cannot be empty"
      else if ¬ (status = "pending" ∨ status = "in_progress" ∨ status = "completed") then
        .error "status must be pending | in_progress | completed"
      else
        updatePlanGo rest (normalized ++ [⟨step, status⟩])
    | _ => .error "each plan item must be an object"

/-- `_update_plan` (tools.py:267-283): returns the result text and the value
`ctx.plan` holds after the call (unchanged on every error path). -/
def _update_plan (ctx : ToolContext) (args : List (String × Json)) : String × List PlanItem :=
  match objGet args "plan" with
  | some (Json.arr plan) =>
    match updatePlanGo plan [] with
    | .error msg => (msg, ctx.plan)
    | .ok normalized =>
      (Json.dumps (Json.obj [("ok", Json.bool true), ("plan_size", Json.num normalized.length)]),
       normalized)
  | _ => ("plan must be a list of \x7bstep, status\x7d", ctx.plan)

/-! ## `subagents.py`: the derived read-only registry -/

/-- `SubagentRunner._build_subagent_tools` (subagents.py:80-96): the child
context forces `read-only`/`never` and an empty plan; the child registry gets
only the parent's non-mutating tools, explicitly skipping `update_plan`. -/
def _build_subagent_tools {σ : Type} (parent_tools : ToolRegistry σ) : ToolRegistry σ :=
  let parent_context := parent_tools.context
  let sub_context : ToolContext :=
    { cwd := parent_context.cwd
      ask_approval := parent_context.ask_approval
      sandbox_mode := SandboxMode.readOnly
      approval_policy := ApprovalPolicy.never
      plan := [] }
  parent_tools.list_tools.foldl
    (fun registry tool =>
      if tool.mutating then registry
      else if tool.name = "update_plan" then registry
      else registry.register tool)
    (ToolRegistry.mk sub_context [])

/-! ## `plugins.py`: manifest tool parsing and registration -/

/-- `[A-Za-z0-9_]` membership (the character class of `_sanitize_name`). -/
def isWordChar (c : Char) : Bool := c.isAlphanum || c = '_'

/-- `re.sub(r"[^A-Za-z0-9_]+", "_", value)`: collapse each run of non-word
characters into a single underscore; the flag records whether the previous
character belonged to such a run. -/
def collapseNonWord : Bool → List Char → List Char
  | _, [] => []
  | prevBad, c :: cs =>
    if isWordChar c then c :: collapseNonWord false cs
    else if prevBad then collapseNonWord true cs
    else '_' :: collapseNonWord true cs

/-- `.strip("_")`. -/
def stripUnderscores (cs : List Char) : List Char :=
  ((cs.dropWhile (fun c => c = '_')).reverse.dropWhile (fun c => c = '_')).reverse

/-- `_sanitize_name` (plugins.py:18-19). -/
def _sanitize_name (value : String) : String :=
  let s := String.mk ((stripUnderscores (collapseNonWord false value.data)).map Char.toLower)
  if s = "" then "item" else s

/-- `_sanitize_name` of mcp.py:17-18 — identical but falls back to `"tool"`. -/
def mcpSanitizeName (value : String) : String :=
  let s := String.mk ((stripUnderscores (collapseNonWord false value.data)).map Char.toLower)
  if s = "" then "tool" else s

/-- `PluginToolSpec` (plugins.py:42-54); `workdir`, a filesystem path, is
outside the embedding's scope. -/
structure PluginToolSpec where
  plugin_name : String
  name : String
  description : String
  parameters : List (String × Json)
  mutating : Bool
  timeout_sec : Int
  command : Option String
  argv : Option (List String)

/-- One iteration of the `for item in raw_tools` loop of `_parse_tools`
(plugins.py:93-127); `.error` is the raised `ValueError`/`TypeError`. -/
def parseToolItem (plugin_name : String) (item : Json) : Except String PluginToolSpec :=
  match item with
  | .obj fields =>
    let name := pyStrip (pyStr ((objGet fields "name").getD (Json.str "")))
    if name = "" then .error "tool.name is required"
    else
      let description0 := pyStrip (pyStr ((objGet fields "description").getD (Json.str "")))
      let description := if description0 = "" then "Plugin tool `" ++ name ++ "`" else description0
      match (objGet fields "parameters").getD (Json.obj []) with
      | .obj parameters =>
        let command0 := pyStrip (pyStr ((objGet fields "command").getD (Json.str "")))
        let command := if command0 = "" then none else some command0
        let argv := match objGet fields "argv" with
          | some (Json.arr values) => some (values.map pyStr)
          | _ => none
        let hasCommand := !(command0 == "")
        let hasArgv := match argv with
          | some (_ :: _) => true
          | _ => false
        if !hasCommand && !hasArgv then
          .error ("tool `" ++ name ++ "` must provide `command` or `argv`")
        else if hasCommand && hasArgv then
          .error ("tool `" ++ name ++ "` cannot provide both `command` and `argv`")
        else
          match pyInt ((objGet fields "timeout_sec").getD (Json.num 120)) with
          | .error exc => .error exc
          | .ok v =>
            .ok { plugin_name := plugin_name, name := name, description := description
                  parameters := parameters
                  mutating := ((objGet fields "mutating").getD (Json.bool false)).truthy
                  timeout_sec := max 1 (min v 1800)
                  command := command, argv := argv }
      | _ => .error "tool.parameters must be an object"
  | _ => .error "tool entry must be an object"

/-- The loop of `_parse_tools`, accumulating specs in order and failing on
the first bad item. -/
def parseToolsGo (plugin_name : String) : List Json → Except String (List PluginToolSpec)
  | [] => .ok []
  | item :: rest =>
    match parseToolItem plugin_name item with
    | .error exc => .error exc
    | .ok spec =>
      match parseToolsGo plugin_name rest with
      | .error exc => .error exc
      | .ok specs => .ok (spec :: specs)

/-- `_parse_tools` (plugins.py:87-128). -/
def _parse_tools (payload : List (String × Json)) (plugin_name : String) :
    Except String (List PluginToolSpec) :=
  match (objGet payload "tools").getD (Json.arr []) with
  | .arr raw_tools => parseToolsGo plugin_name raw_tools
  | _ => .error "`tools` must be a list"

/-- Outcome of `subprocess.run` for a plugin tool (the subprocess itself is
external; the timeout exception is not modelled). -/
structure SubprocResult where
  returncode : Int
  stdout : String
  stderr : String

/-- How the environment runs a plugin subprocess: from the spec, the
arguments and the ambient state, produce the process result and the successor
state. -/
abbrev PluginProc (σ : Type) :=
  PluginToolSpec → List (String × Json) → σ → SubprocResult × σ

/-- `_build_tool_handler` (plugins.py:222-252): fold the subprocess outcome
into the bounded textual contract. -/
def _build_tool_handler {σ : Type} (runProcess : PluginProc σ) (spec : PluginToolSpec) :
    ToolContext → List (String × Json) → σ → HandlerResult σ :=
  fun _ctx args s =>
    let (proc, s') := runProcess spec args s
    let output := pyStrip proc.stdout
    let error_text := pyStrip proc.stderr
    if proc.returncode ≠ 0 then
      let detail :=
        if error_text ≠ "" then error_text
        else if output ≠ "" then output
        else "exit_code=" ++ toString proc.returncode
      (.ok ("plugin `" ++ spec.plugin_name ++ "` tool `" ++ spec.name ++ "` failed: " ++ detail), s')
    else if output = "" then
      (.ok ("plugin `" ++ spec.plugin_name ++ "` tool `" ++ spec.name
        ++ "` finished with empty output"), s')
    else if output.length > 8000 then
      (.ok (pyTake output 8000 ++ "\n... (truncated)"), s')
    else
      (.ok output, s')

/-- The namespaced registry key of a plugin tool (plugins.py:268). -/
def namespacedName (spec : PluginToolSpec) : String :=
  _sanitize_name spec.plugin_name ++ "__" ++ _sanitize_name spec.name

/-- The `Tool` record registered for a plugin tool (plugins.py:272-280). -/
def pluginToolOf {σ : Type} (runProcess : PluginProc σ) (spec : PluginToolSpec) : Tool σ :=
  { name := namespacedName spec
    description := "[plugin:" ++ spec.plugin_name ++ "] " ++ spec.description
    parameters := Json.obj spec.parameters
    handler := _build_tool_handler runProcess spec
    mutating := spec.mutating }

/-- `PluginCommandSpec` (plugins.py:57-66). -/
structure PluginCommandSpec where
  plugin_name : String
  name : String
  description : String
  usage : String
  output : String
  agent_input_template : Option String

/-- A parsed manifest (`_ParsedManifest`, plugins.py:79-84); skills carry
only their names here, their content never reaches the registry. -/
structure ParsedManifest where
  plugin_name : String
  tools : List PluginToolSpec
  commands : List PluginCommandSpec
  skills : List String

/-- `PluginLoadResult` (plugins.py:69-76). -/
structure PluginLoadResult where
  tool_names : List String
  commands : List PluginCommandSpec
  skills : List String
  errors : List String

/-- The body of the `for spec in parsed.tools` loop of `load_plugins`
(plugins.py:267-282), threading the registry, the `existing_tool_names` set
and the load result. -/
def registerSpecStep {σ : Type} (runProcess : PluginProc σ)
    (st : ToolRegistry σ × List String × PluginLoadResult) (spec : PluginToolSpec) :
    ToolRegistry σ × List String × PluginLoadResult :=
  let (reg, existing, result) := st
  let namespaced := namespacedName spec
  if namespaced ∈ existing then
    (reg, existing,
     { result with errors := result.errors ++ ["duplicate plugin tool ignored: " ++ namespaced] })
  else
    (reg.register (pluginToolOf runProcess spec), existing ++ [namespaced],
     { result with tool_names := result.tool_names ++ [namespaced] })

/-- One iteration of the manifest loop of `load_plugins` (plugins.py:260-285):
a manifest that failed to parse reports an error; a parsed one registers its
tools and contributes its commands and skills. -/
def loadManifestStep {σ : Type} (runProcess : PluginProc σ)
    (st : ToolRegistry σ × List String × PluginLoadResult)
    (entry : String × Except String ParsedManifest) :
    ToolRegistry σ × List String × PluginLoadResult :=
  match entry.2 with
  | .error exc =>
    (st.1, st.2.1,
     { st.2.2 with
        errors := st.2.2.errors ++ ["invalid plugin manifest `" ++ entry.1 ++ "`: " ++ exc] })
  | .ok parsed =>
    let st' := parsed.tools.foldl (registerSpecStep runProcess) st
    (st'.1, st'.2.1,
     { st'.2.2 with
        commands := st'.2.2.commands ++ parsed.commands
        skills := st'.2.2.skills ++ parsed.skills })

/-- `load_plugins` (plugins.py:255-287).  `manifests` carries, per manifest
file, its path and the outcome of `_parse_manifest` (manifest discovery and
JSON file reading are filesystem work outside the embedding). -/
def load_plugins {σ : Type} (runProcess : PluginProc σ) (registry : ToolRegistry σ)
    (manifests : List (String × Except String ParsedManifest)) :
    ToolRegistry σ × PluginLoadResult :=
  let st := manifests.foldl (loadManifestStep runProcess)
    (registry, registry.list_tool_names, ⟨[], [], [], []⟩)
  (st.1, st.2.2)

/-! ## `mcp.py`: MCP tool registration -/

/-- The `annotations` attribute of an MCP tool record: possibly absent, and
when present possibly lacking `readOnlyHint`. -/
structure McpAnnotations where
  readOnlyHint : Option Json

/-- An MCP tool as returned by `client.list_tools()` (mcp.py:136-148). -/
structure McpRawTool where
  name : String
  description : String
  inputSchema : Option Json
  annotations : Option McpAnnotations

/-- `read_only` of mcp.py:147-148: `bool(getattr(annotations, "readOnlyHint",
False)) if annotations else False`. -/
def mcpReadOnly (raw : McpRawTool) : Bool :=
  match raw.annotations with
  | none => false
  | some a => (a.readOnlyHint.getD (Json.bool false)).truthy

/-- The `Tool` record `load_mcp_tools` registers for one MCP tool
(mcp.py:136-174); the out-of-process invocation closure is abstracted as
`handler`. -/
def mcpToolFor {σ : Type} (server_name : String) (raw : McpRawTool)
    (handler : ToolContext → List (String × Json) → σ → HandlerResult σ) : Tool σ :=
  let raw_name := pyStrip raw.name
  { name := "mcp__" ++ mcpSanitizeName server_name ++ "__" ++ mcpSanitizeName raw_name
    description :=
      if pyStrip raw.description = "" then
        "[mcp:" ++ server_name ++ "] call MCP tool `" ++ raw_name ++ "`"
      else pyStrip raw.description
    parameters :=
      match raw.inputSchema with
      | some (Json.obj fields) => Json.obj fields
      | _ => Json.obj [("type", Json.str "object"), ("properties", Json.obj [])]
    handler := handler
    mutating := !(mcpReadOnly raw) }

/-- Claim-side reading of the `mutating` value a plugin manifest entry
declares: the truthiness of its `mutating` key, `False` when omitted. -/
def declaredMutating (item : Json) : Bool :=
  match item with
  | .obj fields => ((objGet fields "mutating").getD (Json.bool false)).truthy
  | _ => false

/-- The collision error text `load_plugins` reports for a duplicate
namespaced tool name. -/
def dupToolMsg (n : String) : String := "duplicate plugin tool ignored: " ++ n

/-- Number of registry entries stored under key `n`. -/
def countKey {σ : Type} (l : List (String × Tool σ)) (n : String) : Nat :=
  (l.filter (fun p => p.1 == n)).length

/-! ## Claim-side predicates for the `update_plan` handler -/

/-- Claim-side reading of a valid plan item: an object whose stripped `step`
text is non-empty and whose stripped `status` text is one of the three
allowed values. -/
def planItemValid (item : Json) : Bool :=
  match item with
  | .obj fields =>
    let step := pyStrip (pyStr ((objGet fields "step").getD (Json.str "")))
    let status := pyStrip (pyStr ((objGet fields "status").getD (Json.str "")))
    (!(step == "")) && (status == "pending" || status == "in_progress" || status == "completed")
  | _ => false

/-- The normalised `{step, status}` entry a valid item contributes. -/
def normalizeItem (item : Json) : PlanItem :=
  match item with
  | .obj fields =>
    ⟨pyStrip (pyStr ((objGet fields "step").getD (Json.str ""))),
     pyStrip (pyStr ((objGet fields "status").getD (Json.str "")))⟩
  | _ => ⟨"", ""⟩

/-- Claim-side reading of a valid `update_plan` argument payload. -/
def planArgOk (args : List (String × Json)) : Bool :=
  match objGet args "plan" with
  | some (Json.arr items) => items.all planItemValid
  | _ => false

/-! ## Concrete fixtures used by witnesses -/

/-- Fixture: a mutating tool over `Nat` state whose handler increments the
state (the observable side effect). -/
def writeDemoTool : Tool Nat :=
  { name := "write_file", description := "create a file", parameters := Json.obj []
    handler := fun _ _ n => (.ok "wrote", n + 1), mutating := true }

/-- Fixture: a non-mutating tool whose handler raises after incrementing the
state. -/
def boomTool : Tool Nat :=
  { name := "boom", description := "always fails", parameters := Json.obj []
    handler := fun _ _ n => (.error "kaput", n + 1), mutating := false }

/-- Fixture: a registry over `Nat` state holding the mutating demo tool,
with configurable sandbox mode, approval policy and approval answer. -/
def gateDemoReg (sand : SandboxMode) (pol : ApprovalPolicy) (approve : Bool) : ToolRegistry Nat :=
  { context :=
      { cwd := ["ws"], ask_approval := fun _ _ => approve, sandbox_mode := sand
        approval_policy := pol, plan := [] }
    _tools := [("write_file", writeDemoTool)] }

/-- Fixture: a registry holding only the faulting non-mutating tool. -/
def faultDemoReg : ToolRegistry Nat :=
  { context :=
      { cwd := ["ws"], ask_approval := fun _ _ => true
        sandbox_mode := SandboxMode.workspaceWrite
        approval_policy := ApprovalPolicy.onRequest, plan := [] }
    _tools := [("boom", boomTool)] }

/-- Fixture: a trivial plugin subprocess runner over `Nat` state. -/
def demoProc : PluginProc Nat := fun _ _ s => (⟨0, "ok", ""⟩, s)

/-- Fixture: first declaration of the colliding plugin tool. -/
def demoSpecA : PluginToolSpec :=
  { plugin_name := "demo", name := "deploy", description := "Deploy", parameters := []
    mutating := true, timeout_sec := 120, command := some "./deploy.sh", argv := none }

/-- Fixture: second declaration colliding with the first on the namespaced
name `demo__deploy`. -/
def demoSpecB : PluginToolSpec :=
  { plugin_name := "demo", name := "deploy", description := "Deploy again", parameters := []
    mutating := false, timeout_sec := 60, command := some "./deploy2.sh", argv := none }

/-- Fixture: an empty registry over `Nat` state. -/
def emptyDemoReg : ToolRegistry Nat :=
  { context :=
      { cwd := ["ws"], ask_approval := fun _ _ => true
        sandbox_mode := SandboxMode.workspaceWrite
        approval_policy := ApprovalPolicy.onRequest, plan := [] }
    _tools := [] }

/-- Fixture: two parsed manifests declaring the same namespaced tool. -/
def demoManifestList : List (String × ParsedManifest) :=
  [("plugins/a/apecode_plugin.json", ⟨"demo", [demoSpecA], [], []⟩),
   ("plugins/b/apecode_plugin.json", ⟨"demo", [demoSpecB], [], []⟩)]

/-! ## `agent.py`: messages, callbacks and the agent loop -/

/-- One entry of an assistant message's `tool_calls` list: `id`,
`function.name` and `function.arguments` as the loop coerces them to strings
(agent.py:115-118); `argumentsJson` carries the `json.loads` outcome of the
arguments text, since the embedding holds no JSON parser. -/
structure ToolCall where
  id : String
  name : String
  arguments : String
  argumentsJson : Except String Json

/-- The assistant message returned by `ChatModel.complete` (agent.py:94-108):
`content` is an arbitrary JSON-ish value, `reasoning_content` an optional
string, `tool_calls` the call list (`assistant.get("tool_calls") or []`). -/
structure AssistantMsg where
  content : Json
  reasoning_content : Option String
  tool_calls : List ToolCall

/-- Conversation messages (agent.py:75, 84, 99-109, 122-128). -/
inductive Message where
  | system (content : String)
  | user (content : String)
  | assistant (content : Json) (reasoning_content : Option String) (tool_calls : List ToolCall)
  | tool (tool_call_id : String) (content : String)

/-- The text-part extraction of `_coerce_text` for one list item
(agent.py:26-28). -/
def coercePart : Json → String
  | .obj fields =>
    match objGet fields "type" with
    | some (.str t) => if t = "text" then pyStr ((objGet fields "text").getD (Json.str "")) else ""
    | _ => ""
  | _ => ""

/-- `_coerce_text` (agent.py:19-30). -/
def _coerce_text : Json → String
  | .null => ""
  | .str s => s
  | .arr items => String.join (items.map coercePart)
  | .bool b => pyStr (.bool b)
  | .num n => pyStr (.num n)
  | .obj fields => pyStr (.obj fields)

/-- The provider-neutral chat capability (`ChatModel.complete`,
agent.py:12-16): conversation and tool schema to one assistant message. -/
abbrev ChatModel := List Message → List (String × String × Json) → AssistantMsg

/-- A hook invocation either returns (`.ok`) or raises (`.error`). -/
abbrev HookResult := Except String Unit

/-- `AgentCallbacks` (agent.py:40-54); all hooks optional. -/
structure AgentCallbacks where
  on_status : Option (String → HookResult) := none
  on_thinking : Option (String → HookResult) := none
  on_tool_call : Option (String → String → HookResult) := none
  on_tool_result : Option (String → String → HookResult) := none

/-- `NanoCodeAgent._fire` (agent.py:77-80) for a one-argument hook: nothing
happens when the hook is unset; otherwise whatever the hook does. -/
def fire1 (hook : Option (String → HookResult)) (a : String) : HookResult :=
  match hook with
  | none => .ok ()
  | some f => f a

/-- `NanoCodeAgent._fire` for a two-argument hook. -/
def fire2 (hook : Option (String → String → HookResult)) (a b : String) : HookResult :=
  match hook with
  | none => .ok ()
  | some f => f a b

/-- Outcome of `run`: a normal return, the `RuntimeError` of agent.py:130, or
an exception raised inside a hook and left uncaught. -/
inductive RunOutcome where
  | done (text : String)
  | stepBudgetExceeded
  | exn (msg : String)
deriving DecidableEq

/-- The `for call in tool_calls` loop (agent.py:114-128): fire the call hook,
execute through the registry, fire the result hook, append the tool message;
a hook fault aborts the loop with the messages and state accumulated so far
(note a fault in `on_tool_result` loses the tool message of a call that
already executed). -/
def execToolCalls {σ : Type} (reg : ToolRegistry σ) (cb : AgentCallbacks) :
    List ToolCall → List Message → σ → Option String × List Message × σ
  | [], msgs, s => (none, msgs, s)
  | call :: rest, msgs, s =>
    match fire2 cb.on_tool_call call.name call.arguments with
    | .error e => (some e, msgs, s)
    | .ok _ =>
      let r := reg.execute call.name call.argumentsJson s
      match fire2 cb.on_tool_result call.name r.1 with
      | .error e => (some e, msgs, r.2)
      | .ok _ => execToolCalls reg cb rest (msgs ++ [.tool call.id r.1]) r.2

/-- The assistant record appended at agent.py:99-109: `reasoning_content` is
kept only when truthy (an absent key and an empty `tool_calls` list coincide
in this embedding). -/
def assistantRecord (assistant : AssistantMsg) : Message :=
  .assistant assistant.content
    (match assistant.reasoning_content with
      | some r => if r = "" then none else some r
      | none => none)
    assistant.tool_calls

/-- The `for _ in range(max_steps)` loop of `run` (agent.py:85-130), counting
chat-completion calls; a hook fault propagates as `.exn`. -/
def runLoop {σ : Type} (model : ChatModel) (reg : ToolRegistry σ) (cb : AgentCallbacks) :
    Nat → List Message → σ → Nat → RunOutcome × List Message × σ × Nat
  | 0, msgs, s, calls => (.stepBudgetExceeded, msgs, s, calls)
  | fuel + 1, msgs, s, calls =>
    match fire1 cb.on_status "Thinking..." with
    | .error e => (.exn e, msgs, s, calls)
    | .ok _ =>
      let assistant := model msgs reg.as_openai_tools
      match fire1 cb.on_status "" with
      | .error e => (.exn e, msgs, s, calls + 1)
      | .ok _ =>
        match (match assistant.reasoning_content with
                | some r => if r = "" then Except.ok () else fire1 cb.on_thinking r
                | none => Except.ok ()) with
        | .error e => (.exn e, msgs, s, calls + 1)
        | .ok _ =>
          if assistant.tool_calls.isEmpty then
            (.done (_coerce_text assistant.content), msgs ++ [assistantRecord assistant], s,
             calls + 1)
          else
            match execToolCalls reg cb assistant.tool_calls
                (msgs ++ [assistantRecord assistant]) s with
            | (some e, msgs2, s2) => (.exn e, msgs2, s2, calls + 1)
            | (none, msgs2, s2) => runLoop model reg cb fuel msgs2 s2 (calls + 1)

/-- `NanoCodeAgent.run` (agent.py:82-130) on a fresh agent: the conversation
starts as the single system message (agent.py:75), the user message is
appended, then the loop runs.  Returns the outcome, the final conversation,
the final ambient state and the number of chat-completion calls. -/
def NanoCodeAgent.run {σ : Type} (model : ChatModel) (reg : ToolRegistry σ)
    (cb : AgentCallbacks) (system_prompt : String) (max_steps : Nat)
    (user_input : String) (s : σ) : RunOutcome × List Message × σ × Nat :=
  runLoop model reg cb max_steps [.system system_prompt, .user user_input] s 0

/-- Hooks that never raise. -/
def neverFaults (cb : AgentCallbacks) : Prop :=
  (∀ a, fire1 cb.on_status a = .ok ()) ∧
  (∀ a, fire1 cb.on_thinking a = .ok ()) ∧
  (∀ a b, fire2 cb.on_tool_call a b = .ok ()) ∧
  (∀ a b, fire2 cb.on_tool_result a b = .ok ())

/-! ## Claim-side conversation predicates -/

/-- Scan a conversation left to right; `pending` holds the tool calls of the
last assistant message still awaiting their tool messages, which must be
answered in order before anything else happens.  A conversation may end
mid-block (the run stopped before the next model request). -/
def wlAux : List ToolCall → List Message → Bool
  | _, [] => true
  | [], .system _ :: rest => wlAux [] rest
  | [], .user _ :: rest => wlAux [] rest
  | [], .assistant _ _ tcs :: rest => wlAux tcs rest
  | [], .tool _ _ :: _ => false
  | tc :: tcs, .tool id _ :: rest => if id = tc.id then wlAux tcs rest else false
  | _ :: _, .system _ :: _ => false
  | _ :: _, .user _ :: _ => false
  | _ :: _, .assistant _ _ _ :: _ => false

/-- Claim-side invariant: every tool message answers, in order, a call of the
immediately preceding assistant message; no orphaned tool messages. -/
def wellLinked (msgs : List Message) : Bool := wlAux [] msgs

/-- Strict variant: additionally every assistant block is fully answered. -/
def wlAuxC : List ToolCall → List Message → Bool
  | pending, [] => pending.isEmpty
  | [], .system _ :: rest => wlAuxC [] rest
  | [], .user _ :: rest => wlAuxC [] rest
  | [], .assistant _ _ tcs :: rest => wlAuxC tcs rest
  | [], .tool _ _ :: _ => false
  | tc :: tcs, .tool id _ :: rest => if id = tc.id then wlAuxC tcs rest else false
  | _ :: _, .system _ :: _ => false
  | _ :: _, .user _ :: _ => false
  | _ :: _, .assistant _ _ _ :: _ => false

/-- Every assistant block fully answered, no orphans. -/
def wlClosed (msgs : List Message) : Bool := wlAuxC [] msgs

/-- Not a system message. -/
def nonSystem : Message → Bool
  | .system _ => false
  | _ => true

/-- Exactly one system message, at the head of the conversation. -/
def startsWithOneSystem (msgs : List Message) : Bool :=
  match msgs with
  | .system _ :: rest => rest.all nonSystem
  | _ => false

/-! ## Theorems -/

/-- **C1.** For every `ToolContext` whose sandbox mode is not full-access,
`resolve_path` fails with the path-escape error whenever the raw path, after
resolving relative segments against the workspace root, falls outside the
root, and returns the resolved path for every path strictly inside the root
(the root extended by a non-empty list of segments); with full-access no
containment check is applied and the resolved path is always returned. -/
theorem C1_resolve_path_containment (ctx : ToolContext) (raw : String) :
    (ctx.sandbox_mode ≠ SandboxMode.dangerFullAccess →
      ((∀ extra : List String, resolveAgainst ctx.cwd raw ≠ ctx.cwd ++ extra) →
        ctx.resolve_path raw = .error ("path escapes workspace: " ++ raw)) ∧
      ((∃ extra : List String, extra ≠ [] ∧ resolveAgainst ctx.cwd raw = ctx.cwd ++ extra) →
        ctx.resolve_path raw = .ok (resolveAgainst ctx.cwd raw))) ∧
    (ctx.sandbox_mode = SandboxMode.dangerFullAccess →
      ctx.resolve_path raw = .ok (resolveAgainst ctx.cwd raw)) := by
  constructor
  · intro hmode
    constructor
    · intro hout
      have hnotin : ¬ (_is_within ctx.cwd (resolveAgainst ctx.cwd raw) = true) := by
        intro hin
        rcases List.isPrefixOf_iff_prefix.mp hin with ⟨extra, hex⟩
        exact hout extra hex.symm
      simp only [ToolContext.resolve_path]
      rw [if_pos ⟨hmode, hnotin⟩]
    · intro ⟨extra, _, hex⟩
      have hin : _is_within ctx.cwd (resolveAgainst ctx.cwd raw) = true := by
        apply List.isPrefixOf_iff_prefix.mpr
        exact ⟨extra, hex.symm⟩
      simp only [ToolContext.resolve_path]
      rw [if_neg]
      intro ⟨_, hno⟩
      exact hno hin
  · intro hmode
    simp only [ToolContext.resolve_path]
    rw [if_neg]
    intro ⟨hne, _⟩
    exact hne hmode

/-- Witness for C1: in a workspace rooted at `/ws` with sandbox
`workspace-write`, `../outside.txt` is rejected with the path-escape error,
`a/b.txt` resolves to `/ws/a/b.txt`, and under full-access the same escaping
path resolves without a check. -/
theorem C1_resolve_path_containment_witness :
    (ToolContext.mk ["ws"] (fun _ _ => true) SandboxMode.workspaceWrite ApprovalPolicy.onRequest []).resolve_path "../outside.txt"
      = .error "path escapes workspace: ../outside.txt" ∧
    (ToolContext.mk ["ws"] (fun _ _ => true) SandboxMode.workspaceWrite ApprovalPolicy.onRequest []).resolve_path "a/b.txt"
      = .ok ["ws", "a", "b.txt"] ∧
    (ToolContext.mk ["ws"] (fun _ _ => true) SandboxMode.dangerFullAccess ApprovalPolicy.onRequest []).resolve_path "../outside.txt"
      = .ok ["outside.txt"] := by
  refine ⟨?_, ?_, ?_⟩
  · have h := (C1_resolve_path_containment
      (ToolContext.mk ["ws"] (fun _ _ => true) SandboxMode.workspaceWrite ApprovalPolicy.onRequest [])
      "../outside.txt").1 (by decide)
    exact h.1 (fun extra hex => absurd (List.cons_eq_cons.mp hex).1 (by decide))
  · have h := (C1_resolve_path_containment
      (ToolContext.mk ["ws"] (fun _ _ => true) SandboxMode.workspaceWrite ApprovalPolicy.onRequest [])
      "a/b.txt").1 (by decide)
    exact h.2 ⟨["a", "b.txt"], by decide, by decide⟩
  · exact (C1_resolve_path_containment
      (ToolContext.mk ["ws"] (fun _ _ => true) SandboxMode.dangerFullAccess ApprovalPolicy.onRequest [])
      "../outside.txt").2 rfl

/-- `lookupTool` after a handler replacement: the found tool is the original
one with its handler swapped. -/
theorem lookupTool_withHandler {σ : Type} (l : List (String × Tool σ)) (name : String)
    (h : ToolContext → List (String × Json) → σ → HandlerResult σ) :
    lookupTool (l.map (fun p => if p.1 = name then (p.1, { p.2 with handler := h }) else p)) name
      = (lookupTool l name).map (fun t => { t with handler := h }) := by
  induction l with
  | nil => rfl
  | cons p rest ih =>
    by_cases hp : p.1 = name
    · simp [lookupTool, List.find?, hp]
    · simp only [List.map_cons]
      rw [if_neg hp]
      simp only [lookupTool, List.find?] at ih ⊢
      rw [show (p.1 == name) = false from beq_eq_false_iff_ne.mpr hp]
      exact ih

/-- **C2.** For a registered mutating tool and a well-formed (JSON object)
argument payload, `execute` returns the sandbox-blocked result under
`read-only`, the approval-blocked result under policy `never`, and the
rejection result under `on-request` with a denying callback — in each case
leaving the state unchanged and giving the same result for every handler the
tool might have (the handler is never invoked); under policy `always` it
proceeds directly to the handler dispatch. -/
theorem C2_mutating_gate {σ : Type} (reg : ToolRegistry σ) (name : String) (tool : Tool σ)
    (args : List (String × Json)) (s : σ)
    (htool : lookupTool reg._tools name = some tool) (hmut : tool.mutating = true) :
    (reg.context.sandbox_mode = SandboxMode.readOnly →
      reg.execute name (.ok (.obj args)) s = ("blocked by sandbox policy: read-only", s) ∧
      ∀ h, (withHandler reg name h).execute name (.ok (.obj args)) s
            = ("blocked by sandbox policy: read-only", s)) ∧
    (reg.context.sandbox_mode ≠ SandboxMode.readOnly →
      reg.context.approval_policy = ApprovalPolicy.never →
      reg.execute name (.ok (.obj args)) s = ("blocked by approval policy: never", s) ∧
      ∀ h, (withHandler reg name h).execute name (.ok (.obj args)) s
            = ("blocked by approval policy: never", s)) ∧
    (reg.context.sandbox_mode ≠ SandboxMode.readOnly →
      reg.context.approval_policy = ApprovalPolicy.onRequest →
      (∀ a p, reg.context.ask_approval a p = false) →
      reg.execute name (.ok (.obj args)) s = ("Rejected by user.", s) ∧
      ∀ h, (withHandler reg name h).execute name (.ok (.obj args)) s = ("Rejected by user.", s)) ∧
    (reg.context.sandbox_mode ≠ SandboxMode.readOnly →
      reg.context.approval_policy = ApprovalPolicy.always →
      reg.execute name (.ok (.obj args)) s = handlerDispatch tool reg.context args s) := by
  have hw : ∀ h, lookupTool (withHandler reg name h)._tools name
      = some { tool with handler := h } := by
    intro h
    simp [withHandler, lookupTool_withHandler, htool]
  refine ⟨?_, ?_, ?_, ?_⟩
  · intro hsand
    constructor
    · simp [ToolRegistry.execute, htool, hmut, hsand]
    · intro h
      have hctx : (withHandler reg name h).context = reg.context := rfl
      simp [ToolRegistry.execute, hw h, hmut, hctx, hsand]
  · intro hsand hpol
    constructor
    · simp [ToolRegistry.execute, htool, hmut, hsand, hpol]
    · intro h
      have hctx : (withHandler reg name h).context = reg.context := rfl
      simp [ToolRegistry.execute, hw h, hmut, hctx, hsand, hpol]
  · intro hsand hpol hcb
    constructor
    · simp [ToolRegistry.execute, htool, hmut, hsand, hpol, hcb]
    · intro h
      have hctx : (withHandler reg name h).context = reg.context := rfl
      simp [ToolRegistry.execute, hw h, hmut, hctx, hsand, hpol, hcb]
  · intro hsand hpol
    simp [ToolRegistry.execute, htool, hmut, hsand, hpol]

/-- Witness for C2: the mutating demo tool is blocked under `read-only`,
blocked under policy `never`, rejected under `on-request` with a denying
callback (state stays `0` in all three, so the incrementing handler never
ran), and under `always` the handler runs and increments the state. -/
theorem C2_mutating_gate_witness :
    (gateDemoReg SandboxMode.readOnly ApprovalPolicy.always true).execute
        "write_file" (.ok (Json.obj [])) 0 = ("blocked by sandbox policy: read-only", 0) ∧
    (gateDemoReg SandboxMode.workspaceWrite ApprovalPolicy.never true).execute
        "write_file" (.ok (Json.obj [])) 0 = ("blocked by approval policy: never", 0) ∧
    (gateDemoReg SandboxMode.workspaceWrite ApprovalPolicy.onRequest false).execute
        "write_file" (.ok (Json.obj [])) 0 = ("Rejected by user.", 0) ∧
    (gateDemoReg SandboxMode.workspaceWrite ApprovalPolicy.always false).execute
        "write_file" (.ok (Json.obj [])) 0 = ("wrote", 1) := by
  refine ⟨?_, ?_, ?_, ?_⟩
  · exact ((C2_mutating_gate (gateDemoReg SandboxMode.readOnly ApprovalPolicy.always true)
      "write_file" writeDemoTool [] 0 rfl rfl).1 rfl).1
  · exact (((C2_mutating_gate (gateDemoReg SandboxMode.workspaceWrite ApprovalPolicy.never true)
      "write_file" writeDemoTool [] 0 rfl rfl).2.1 (by decide) rfl)).1
  · exact (((C2_mutating_gate (gateDemoReg SandboxMode.workspaceWrite ApprovalPolicy.onRequest false)
      "write_file" writeDemoTool [] 0 rfl rfl).2.2.1 (by decide) rfl (fun _ _ => rfl))).1
  · exact ((C2_mutating_gate (gateDemoReg SandboxMode.workspaceWrite ApprovalPolicy.always false)
      "write_file" writeDemoTool [] 0 rfl rfl).2.2.2 (by decide) rfl).trans rfl

/-- **C3.** `ToolRegistry.execute` is total and never raises: an unknown tool
name yields a textual "unknown tool" result, an argument text that fails to
parse (or does not parse to a JSON object) yields a textual argument-error
result, and an exception raised inside the handler is caught and converted to
a textual failure result — in every case `execute` returns an ordinary
`String × σ` pair. -/
theorem C3_execute_never_raises {σ : Type} (reg : ToolRegistry σ) (name : String) (s : σ) :
    (lookupTool reg._tools name = none →
      ∀ arguments_json, reg.execute name arguments_json s = ("Unknown tool: " ++ name, s)) ∧
    (∀ tool exc, lookupTool reg._tools name = some tool →
      reg.execute name (.error exc) s = ("Invalid tool arguments JSON: " ++ exc, s)) ∧
    (∀ tool parsed, lookupTool reg._tools name = some tool →
      (∀ fields, parsed ≠ Json.obj fields) →
      reg.execute name (.ok parsed) s = ("Tool arguments must be a JSON object.", s)) ∧
    (∀ tool args exc s', lookupTool reg._tools name = some tool →
      tool.mutating = false → tool.handler reg.context args s = (.error exc, s') →
      reg.execute name (.ok (.obj args)) s = ("Tool execution failed: " ++ exc, s')) := by
  refine ⟨?_, ?_, ?_, ?_⟩
  · intro hnone arguments_json
    simp [ToolRegistry.execute, hnone]
  · intro tool exc htool
    simp [ToolRegistry.execute, htool]
  · intro tool parsed htool hobj
    cases parsed with
    | obj fields => exact absurd rfl (hobj fields)
    | null => simp [ToolRegistry.execute, htool]
    | bool b => simp [ToolRegistry.execute, htool]
    | num n => simp [ToolRegistry.execute, htool]
    | str t => simp [ToolRegistry.execute, htool]
    | arr items => simp [ToolRegistry.execute, htool]
  · intro tool args exc s' htool hmut hfault
    simp [ToolRegistry.execute, htool, hmut, handlerDispatch, hfault]

/-- Witness for C3: on the faulting-tool registry, an unknown name, malformed
argument text, a non-object argument payload, and a raising handler all come
back as ordinary textual results (and the handler's pre-fault state change
survives in the last case). -/
theorem C3_execute_never_raises_witness :
    faultDemoReg.execute "nope" (.ok (Json.obj [])) 0 = ("Unknown tool: nope", 0) ∧
    faultDemoReg.execute "boom" (.error "Expecting value: line 1 column 1 (char 0)") 0
      = ("Invalid tool arguments JSON: Expecting value: line 1 column 1 (char 0)", 0) ∧
    faultDemoReg.execute "boom" (.ok (Json.arr [])) 0
      = ("Tool arguments must be a JSON object.", 0) ∧
    faultDemoReg.execute "boom" (.ok (Json.obj [])) 0
      = ("Tool execution failed: kaput", 1) := by
  refine ⟨?_, ?_, ?_, ?_⟩
  · exact (C3_execute_never_raises faultDemoReg "nope" 0).1 rfl (.ok (Json.obj []))
  · exact (C3_execute_never_raises faultDemoReg "boom" 0).2.1 boomTool
      "Expecting value: line 1 column 1 (char 0)" rfl
  · exact (C3_execute_never_raises faultDemoReg "boom" 0).2.2.1 boomTool (Json.arr [])
      rfl (fun fields h => Json.noConfusion h)
  · exact (C3_execute_never_raises faultDemoReg "boom" 0).2.2.2 boomTool [] "kaput" 1
      rfl rfl rfl


/-- Unfold `planItemValid` on an object item into its two propositional
components. -/
theorem planItemValid_obj_iff (fields : List (String × Json)) :
    planItemValid (Json.obj fields) = true ↔
      pyStrip (pyStr ((objGet fields "step").getD (Json.str ""))) ≠ "" ∧
      (pyStrip (pyStr ((objGet fields "status").getD (Json.str ""))) = "pending" ∨
       pyStrip (pyStr ((objGet fields "status").getD (Json.str ""))) = "in_progress" ∨
       pyStrip (pyStr ((objGet fields "status").getD (Json.str ""))) = "completed") := by
  simp [planItemValid, or_assoc]

/-- When every item validates, the normalisation loop succeeds and appends
the normalised entries in order. -/
theorem updatePlanGo_ok (items : List Json) :
    ∀ acc, items.all planItemValid = true →
      updatePlanGo items acc = .ok (acc ++ items.map normalizeItem) := by
  induction items with
  | nil => intro acc _; simp [updatePlanGo]
  | cons item rest ih =>
    intro acc hall
    rw [List.all_cons, Bool.and_eq_true] at hall
    obtain ⟨hitem, hrest⟩ := hall
    cases item with
    | obj fields =>
      obtain ⟨hstep, hstat⟩ := (planItemValid_obj_iff fields).mp hitem
      simp only [updatePlanGo]
      rw [if_neg hstep, if_neg (not_not_intro hstat)]
      rw [ih _ hrest]
      simp [normalizeItem]
    | null => simp [planItemValid] at hitem
    | bool b => simp [planItemValid] at hitem
    | num n => simp [planItemValid] at hitem
    | str t => simp [planItemValid] at hitem
    | arr xs => simp [planItemValid] at hitem

/-- When some item fails validation, the normalisation loop fails with one of
the three item-level error texts. -/
theorem updatePlanGo_err (items : List Json) :
    ∀ acc, items.all planItemValid = false →
      ∃ msg, updatePlanGo items acc = .error msg ∧
        (msg = "each plan item must be an object" ∨
         msg = "plan step cannot be empty" ∨
         msg = "status must be pending | in_progress | completed") := by
  induction items with
  | nil => intro acc h; simp at h
  | cons item rest ih =>
    intro acc hall
    rw [List.all_cons, Bool.and_eq_false_iff] at hall
    by_cases hitem : planItemValid item = true
    · have hrest : rest.all planItemValid = false := by
        rcases hall with h | h
        · exact absurd hitem (by simp [h])
        · exact h
      cases item with
      | obj fields =>
        obtain ⟨hstep, hstat⟩ := (planItemValid_obj_iff fields).mp hitem
        simp only [updatePlanGo]
        rw [if_neg hstep, if_neg (not_not_intro hstat)]
        exact ih _ hrest
      | null => simp [planItemValid] at hitem
      | bool b => simp [planItemValid] at hitem
      | num n => simp [planItemValid] at hitem
      | str t => simp [planItemValid] at hitem
      | arr xs => simp [planItemValid] at hitem
    · cases item with
      | obj fields =>
        rw [planItemValid_obj_iff, not_and_or] at hitem
        simp only [updatePlanGo]
        by_cases hstep :
            pyStrip (pyStr ((objGet fields "step").getD (Json.str ""))) = ""
        · refine ⟨"plan step cannot be empty", ?_, Or.inr (Or.inl rfl)⟩
          rw [if_pos hstep]
        · have hstat : ¬ (pyStrip (pyStr ((objGet fields "status").getD (Json.str ""))) = "pending" ∨
              pyStrip (pyStr ((objGet fields "status").getD (Json.str ""))) = "in_progress" ∨
              pyStrip (pyStr ((objGet fields "status").getD (Json.str ""))) = "completed") := by
            rcases hitem with h | h
            · exact absurd hstep (by simpa using h)
            · exact h
          refine ⟨"status must be pending | in_progress | completed", ?_,
            Or.inr (Or.inr rfl)⟩
          rw [if_neg hstep, if_pos hstat]
      | null => exact ⟨_, rfl, Or.inl rfl⟩
      | bool b => exact ⟨_, rfl, Or.inl rfl⟩
      | num n => exact ⟨_, rfl, Or.inl rfl⟩
      | str t => exact ⟨_, rfl, Or.inl rfl⟩
      | arr xs => exact ⟨_, rfl, Or.inl rfl⟩

/-- **C10.** The plan-update handler is atomic: if the argument payload is
not a list of objects each having a non-empty `step` and a `status` in
`pending | in_progress | completed`, the handler returns one of the textual
errors and the context's plan is exactly as it was; when every item
validates the plan is replaced wholesale by the normalised list and the
success text reports its size. -/
theorem C10_update_plan_atomic (ctx : ToolContext) (args : List (String × Json)) :
    (planArgOk args = false →
      (_update_plan ctx args).2 = ctx.plan ∧
      ((_update_plan ctx args).1 = "plan must be a list of \x7bstep, status\x7d" ∨
       (_update_plan ctx args).1 = "each plan item must be an object" ∨
       (_update_plan ctx args).1 = "plan step cannot be empty" ∨
       (_update_plan ctx args).1 = "status must be pending | in_progress | completed")) ∧
    (∀ items, objGet args "plan" = some (Json.arr items) → items.all planItemValid = true →
      _update_plan ctx args
        = (Json.dumps (Json.obj [("ok", Json.bool true),
            ("plan_size", Json.num (items.length : Int))]),
           items.map normalizeItem)) := by
  constructor
  · intro hbad
    cases hplan : objGet args "plan" with
    | none => simp [_update_plan, hplan]
    | some v =>
      cases v with
      | arr items =>
        simp only [planArgOk, hplan] at hbad
        obtain ⟨msg, hgo, hmsg⟩ := updatePlanGo_err items [] hbad
        simp only [_update_plan, hplan, hgo]
        rcases hmsg with h | h | h <;> exact ⟨by simp, by simp [h]⟩
      | null => simp [_update_plan, hplan]
      | bool b => simp [_update_plan, hplan]
      | num n => simp [_update_plan, hplan]
      | str t => simp [_update_plan, hplan]
      | obj fs => simp [_update_plan, hplan]
  · intro items hplan hall
    simp only [_update_plan, hplan]
    rw [updatePlanGo_ok items [] hall]
    simp

/-- Witness for C10: a payload whose second item has an invalid status leaves
the plan untouched and returns the status error; a fully valid payload
replaces the plan wholesale with the normalised (stripped) entries. -/
theorem C10_update_plan_atomic_witness :
    (_update_plan
        (ToolContext.mk ["ws"] (fun _ _ => true) SandboxMode.workspaceWrite
          ApprovalPolicy.onRequest [⟨"old", "pending"⟩])
        [("plan", Json.arr [Json.obj [("step", Json.str "a"), ("status", Json.str "pending")],
                            Json.obj [("step", Json.str "b"), ("status", Json.str "done")]])]).2
      = [⟨"old", "pending"⟩] ∧
    _update_plan
        (ToolContext.mk ["ws"] (fun _ _ => true) SandboxMode.workspaceWrite
          ApprovalPolicy.onRequest [⟨"old", "pending"⟩])
        [("plan", Json.arr [Json.obj [("step", Json.str " a "), ("status", Json.str "completed")]])]
      = ("\x7b\"ok\": true, \"plan_size\": 1\x7d", [⟨"a", "completed"⟩]) := by
  constructor
  · exact ((C10_update_plan_atomic
      (ToolContext.mk ["ws"] (fun _ _ => true) SandboxMode.workspaceWrite
        ApprovalPolicy.onRequest [⟨"old", "pending"⟩])
      [("plan", Json.arr [Json.obj [("step", Json.str "a"), ("status", Json.str "pending")],
                          Json.obj [("step", Json.str "b"), ("status", Json.str "done")]])]).1
      (by decide)).1
  · exact ((C10_update_plan_atomic
      (ToolContext.mk ["ws"] (fun _ _ => true) SandboxMode.workspaceWrite
        ApprovalPolicy.onRequest [⟨"old", "pending"⟩])
      [("plan", Json.arr [Json.obj [("step", Json.str " a "), ("status", Json.str "completed")]])]).2
      [Json.obj [("step", Json.str " a "), ("status", Json.str "completed")]]
      rfl (by decide)).trans (by decide)

/-- Every entry of `insertTool l t` comes from `l` or is the new `(t.name, t)`
binding. -/
theorem mem_insertTool {σ : Type} (l : List (String × Tool σ)) (t : Tool σ)
    (p : String × Tool σ) : p ∈ insertTool l t → p ∈ l ∨ p = (t.name, t) := by
  induction l with
  | nil =>
    intro h
    simp only [insertTool, List.mem_singleton] at h
    exact Or.inr h
  | cons q rest ih =>
    obtain ⟨k, v⟩ := q
    intro h
    simp only [insertTool] at h
    split at h
    · rename_i hk
      rcases List.mem_cons.mp h with h | h
      · exact Or.inr (by rw [h, hk])
      · exact Or.inl (List.mem_cons_of_mem _ h)
    · rcases List.mem_cons.mp h with h | h
      · exact Or.inl (List.mem_cons.mpr (Or.inl h))
      · rcases ih h with h | h
        · exact Or.inl (List.mem_cons_of_mem _ h)
        · exact Or.inr h

/-- The subagent registration fold never changes the registry's context. -/
theorem buildSubFold_context {σ : Type} (ts : List (Tool σ)) :
    ∀ acc : ToolRegistry σ,
      (ts.foldl
        (fun registry tool =>
          if tool.mutating then registry
          else if tool.name = "update_plan" then registry
          else registry.register tool) acc).context = acc.context := by
  induction ts with
  | nil => intro acc; rfl
  | cons t ts ih =>
    intro acc
    simp only [List.foldl_cons]
    rw [ih]
    by_cases hm : t.mutating = true
    · simp [hm]
    · by_cases hn : t.name = "update_plan" <;> simp [hm, hn, ToolRegistry.register]

/-- Invariant of the subagent registration fold: every registered entry is a
non-mutating tool, keyed by its own name, and is not `update_plan`. -/
theorem buildSubFold_inv {σ : Type} (ts : List (Tool σ)) :
    ∀ acc : ToolRegistry σ,
      (∀ p ∈ acc._tools, p.1 = p.2.name ∧ p.2.mutating = false ∧ p.2.name ≠ "update_plan") →
      ∀ p ∈ (ts.foldl
        (fun registry tool =>
          if tool.mutating then registry
          else if tool.name = "update_plan" then registry
          else registry.register tool) acc)._tools,
        p.1 = p.2.name ∧ p.2.mutating = false ∧ p.2.name ≠ "update_plan" := by
  induction ts with
  | nil => intro acc hacc; exact hacc
  | cons t ts ih =>
    intro acc hacc
    simp only [List.foldl_cons]
    by_cases hm : t.mutating = true
    · simp only [hm, if_true]
      exact ih acc hacc
    · by_cases hn : t.name = "update_plan"
      · simp only [hm, hn, if_false, if_true]
        exact ih acc hacc
      · simp only [hm, hn, if_false]
        apply ih
        intro p hp
        rcases mem_insertTool acc._tools t p hp with h | h
        · exact hacc p h
        · rw [h]
          refine ⟨rfl, ?_, hn⟩
          simpa using hm

/-- A registry whose entries all have keys different from `n` resolves `n` to
nothing. -/
theorem lookupTool_none_of_keys {σ : Type} (l : List (String × Tool σ)) (n : String)
    (h : ∀ p ∈ l, p.1 ≠ n) : lookupTool l n = none := by
  have hfind : List.find? (fun p => p.1 == n) l = none := by
    rw [List.find?_eq_none]
    intro p hp
    simpa using h p hp
  simp [lookupTool, hfind]

/-- **C4.** For every parent registry, the subagent-derived registry contains
zero mutating tools and does not contain `update_plan`, and the derived child
context forces `sandbox_mode = read-only` and `approval_policy = never`
regardless of the parent's settings. -/
theorem C4_subagent_isolation {σ : Type} (parent_tools : ToolRegistry σ) :
    (_build_subagent_tools parent_tools).context.sandbox_mode = SandboxMode.readOnly ∧
    (_build_subagent_tools parent_tools).context.approval_policy = ApprovalPolicy.never ∧
    (∀ p ∈ (_build_subagent_tools parent_tools)._tools,
      p.2.mutating = false ∧ p.2.name ≠ "update_plan") ∧
    lookupTool (_build_subagent_tools parent_tools)._tools "update_plan" = none := by
  have hctx := buildSubFold_context (σ := σ) parent_tools.list_tools
  have hinv := buildSubFold_inv (σ := σ) parent_tools.list_tools
  refine ⟨?_, ?_, ?_, ?_⟩
  · simp only [_build_subagent_tools]
    rw [hctx]
  · simp only [_build_subagent_tools]
    rw [hctx]
  · intro p hp
    have := hinv _ (by intro p hp; simp at hp) p hp
    exact ⟨this.2.1, this.2.2⟩
  · apply lookupTool_none_of_keys
    intro p hp
    have := hinv _ (by intro p hp; simp at hp) p hp
    rw [this.1]
    exact this.2.2

/-- Witness for C4: deriving subagent tools from the demo registries yields a
read-only/never child context, keeps the non-mutating `boom` tool, and drops
the mutating `write_file` tool (so `update_plan` and `write_file` resolve to
nothing). -/
theorem C4_subagent_isolation_witness :
    (_build_subagent_tools faultDemoReg).context.sandbox_mode = SandboxMode.readOnly ∧
    (_build_subagent_tools faultDemoReg).context.approval_policy = ApprovalPolicy.never ∧
    (boomTool.mutating = false ∧ boomTool.name ≠ "update_plan") ∧
    lookupTool (_build_subagent_tools
      (gateDemoReg SandboxMode.dangerFullAccess ApprovalPolicy.always true))._tools
      "update_plan" = none := by
  refine ⟨(C4_subagent_isolation faultDemoReg).1, (C4_subagent_isolation faultDemoReg).2.1,
    ?_, (C4_subagent_isolation
      (gateDemoReg SandboxMode.dangerFullAccess ApprovalPolicy.always true)).2.2.2⟩
  exact (C4_subagent_isolation faultDemoReg).2.2.1 ("boom", boomTool)
    (List.mem_singleton.mpr rfl)

/-- A successfully parsed plugin tool's `mutating` flag is exactly the
truthiness of the item's declared `mutating` key, `false` when omitted. -/
theorem parseToolItem_mutating (plugin_name : String) (item : Json) (spec : PluginToolSpec)
    (h : parseToolItem plugin_name item = .ok spec) :
    spec.mutating = declaredMutating item := by
  cases item with
  | obj fields =>
    simp only [parseToolItem] at h
    repeat' split at h
    all_goals
      first
        | exact Except.noConfusion h
        | (simp only [Except.ok.injEq] at h; subst h; simp [declaredMutating])
  | null => simp [parseToolItem] at h
  | bool b => simp [parseToolItem] at h
  | num n => simp [parseToolItem] at h
  | str t => simp [parseToolItem] at h
  | arr xs => simp [parseToolItem] at h

/-- Over a successful parse, the specs' mutating flags are pointwise the
items' declared flags. -/
theorem parseToolsGo_mutating (plugin_name : String) (items : List Json) :
    ∀ specs, parseToolsGo plugin_name items = .ok specs →
      specs.map (·.mutating) = items.map declaredMutating := by
  induction items with
  | nil =>
    intro specs h
    simp only [parseToolsGo, Except.ok.injEq] at h
    subst h
    rfl
  | cons item rest ih =>
    intro specs h
    simp only [parseToolsGo] at h
    cases hitem : parseToolItem plugin_name item with
    | error e => rw [hitem] at h; exact Except.noConfusion h
    | ok spec =>
      rw [hitem] at h
      cases hrest : parseToolsGo plugin_name rest with
      | error e => rw [hrest] at h; exact Except.noConfusion h
      | ok specs' =>
        rw [hrest] at h
        simp only [Except.ok.injEq] at h
        subst h
        simp only [List.map_cons]
        rw [ih specs' hrest, parseToolItem_mutating plugin_name item spec hitem]

/-- **C5 (counterexample).** The claim fails for plugin-manifest tools: an
entry that omits the `mutating` flag entirely — so is in no way explicitly
declared read-only — parses to a spec with `mutating = false`, and the tool
built from that spec is registered as non-mutating. -/
theorem C5_counterexample :
    objGet [("name", Json.str "deploy"), ("command", Json.str "./deploy.sh")] "mutating" = none ∧
    _parse_tools
        [("tools", Json.arr [Json.obj [("name", Json.str "deploy"),
          ("command", Json.str "./deploy.sh")]])] "demo"
      = .ok [{ plugin_name := "demo", name := "deploy",
               description := "Plugin tool `deploy`", parameters := []
               mutating := false, timeout_sec := 120
               command := some "./deploy.sh", argv := none }] ∧
    (pluginToolOf (fun _ _ (s : Nat) => (⟨0, "", ""⟩, s))
        { plugin_name := "demo", name := "deploy",
          description := "Plugin tool `deploy`", parameters := []
          mutating := false, timeout_sec := 120
          command := some "./deploy.sh", argv := none }).mutating = false :=
  ⟨rfl, rfl, rfl⟩

/-- **C5 (amended).** MCP tools are registered mutating unless their
annotations carry a truthy `readOnlyHint` (absent annotations mean mutating);
plugin-manifest tools instead take their `mutating` flag from the
declaration, defaulting to **non**-mutating when the flag is omitted. -/
theorem C5_external_mutability_amended :
    (∀ (σ : Type) (server_name : String) (raw : McpRawTool)
        (handler : ToolContext → List (String × Json) → σ → HandlerResult σ),
        (raw.annotations = none →
          (mcpToolFor server_name raw handler).mutating = true) ∧
        (∀ a, raw.annotations = some a →
          (mcpToolFor server_name raw handler).mutating
            = !(a.readOnlyHint.getD (Json.bool false)).truthy)) ∧
    (∀ (payload : List (String × Json)) (plugin_name : String)
        (specs : List PluginToolSpec) (raw_tools : List Json),
        (objGet payload "tools").getD (Json.arr []) = Json.arr raw_tools →
        _parse_tools payload plugin_name = .ok specs →
        specs.map (·.mutating) = raw_tools.map declaredMutating) := by
  constructor
  · intro σ server_name raw handler
    constructor
    · intro h
      simp [mcpToolFor, mcpReadOnly, h]
    · intro a h
      simp [mcpToolFor, mcpReadOnly, h]
  · intro payload plugin_name specs raw_tools hraw hparse
    simp only [_parse_tools, hraw] at hparse
    exact parseToolsGo_mutating plugin_name raw_tools specs hparse

/-- Witness for C5 (amended): an MCP tool without annotations comes out
mutating, and the demo manifest entry without a `mutating` key parses to a
non-mutating spec, matching its declared (defaulted) flag. -/
theorem C5_external_mutability_amended_witness :
    (mcpToolFor (σ := Nat) "files" ⟨"read_file", "Read a file", none, none⟩
        (fun _ _ s => (.ok "", s))).mutating = true ∧
    ([{ plugin_name := "demo", name := "deploy",
        description := "Plugin tool `deploy`", parameters := []
        mutating := false, timeout_sec := 120
        command := some "./deploy.sh", argv := none }] : List PluginToolSpec).map (·.mutating)
      = [Json.obj [("name", Json.str "deploy"),
          ("command", Json.str "./deploy.sh")]].map declaredMutating := by
  constructor
  · exact (C5_external_mutability_amended.1 Nat "files" ⟨"read_file", "Read a file", none, none⟩
      (fun _ _ s => (.ok "", s))).1 rfl
  · exact C5_external_mutability_amended.2
      [("tools", Json.arr [Json.obj [("name", Json.str "deploy"),
        ("command", Json.str "./deploy.sh")]])] "demo" _ _ rfl rfl

/-- Appending to a fixed string is injective, so two collision messages agree
only on the same name. -/
theorem dupToolMsg_inj {m n : String} (h : dupToolMsg m = dupToolMsg n) : m = n := by
  have hd := congrArg String.data h
  simp only [dupToolMsg, String.data_append] at hd
  exact congrArg String.mk (List.append_cancel_left hd)

/-- Inserting a tool under a different key leaves `lookupTool` at `n`
unchanged. -/
theorem lookupTool_insertTool_ne {σ : Type} (l : List (String × Tool σ)) (t : Tool σ)
    (n : String) (h : t.name ≠ n) :
    lookupTool (insertTool l t) n = lookupTool l n := by
  induction l with
  | nil =>
    simp [insertTool, lookupTool, List.find?, beq_eq_false_iff_ne.mpr h]
  | cons q rest ih =>
    obtain ⟨k, v⟩ := q
    simp only [insertTool]
    split
    · rename_i hk
      simp only [lookupTool, List.find?]
      rw [show (k == n) = false from beq_eq_false_iff_ne.mpr (by rw [hk]; exact h)]
    · simp only [lookupTool, List.find?] at ih ⊢
      cases hkn : (k == n) with
      | true => rfl
      | false => exact ih

/-- Inserting a tool under a different key leaves the entry count at `n`
unchanged. -/
theorem countKey_insertTool_ne {σ : Type} (l : List (String × Tool σ)) (t : Tool σ)
    (n : String) (h : t.name ≠ n) :
    countKey (insertTool l t) n = countKey l n := by
  induction l with
  | nil =>
    simp [insertTool, countKey, List.filter, beq_eq_false_iff_ne.mpr h]
  | cons q rest ih =>
    obtain ⟨k, v⟩ := q
    simp only [insertTool]
    split
    · rename_i hk
      simp only [countKey, List.filter]
      rw [show (k == n) = false from beq_eq_false_iff_ne.mpr (by rw [hk]; exact h)]
    · simp only [countKey, List.filter] at ih ⊢
      cases hkn : (k == n) with
      | true => simpa using ih
      | false => exact ih

/-- `lookupTool` finds the freshly inserted tool under its own name. -/
theorem lookupTool_insertTool_self {σ : Type} (l : List (String × Tool σ)) (t : Tool σ) :
    lookupTool (insertTool l t) t.name = some t := by
  induction l with
  | nil => simp [insertTool, lookupTool, List.find?]
  | cons q rest ih =>
    obtain ⟨k, v⟩ := q
    simp only [insertTool]
    split
    · rename_i hk
      simp [lookupTool, List.find?, hk]
    · rename_i hk
      simp only [lookupTool, List.find?] at ih ⊢
      rw [show (k == t.name) = false from beq_eq_false_iff_ne.mpr hk]
      exact ih

/-- Inserting under a key with no current entry yields exactly one entry. -/
theorem countKey_insertTool_self {σ : Type} (l : List (String × Tool σ)) (t : Tool σ)
    (h : countKey l t.name = 0) :
    countKey (insertTool l t) t.name = 1 := by
  induction l with
  | nil => simp [insertTool, countKey, List.filter]
  | cons q rest ih =>
    obtain ⟨k, v⟩ := q
    have hkn : (k == t.name) = false := by
      cases hx : (k == t.name) with
      | true =>
        simp only [countKey, List.filter, hx] at h
        exact absurd h (by simp)
      | false => rfl
    have hk' : ¬ k = t.name := by simpa using hkn
    simp only [countKey, List.filter, hkn] at h
    simp only [insertTool]
    rw [if_neg hk']
    simp only [countKey, List.filter, hkn]
    exact ih h

/-- Membership through `insertSorted`. -/
theorem mem_insertSorted_iff {σ : Type} (x p : String × Tool σ) (l : List (String × Tool σ)) :
    p ∈ insertSorted x l ↔ p = x ∨ p ∈ l := by
  induction l with
  | nil => simp [insertSorted]
  | cons y ys ih =>
    simp only [insertSorted]
    split
    · simp [List.mem_cons, or_comm, or_assoc, or_left_comm]
    · simp only [List.mem_cons, ih]
      tauto

/-- Membership through the whole sorting fold. -/
theorem mem_sortTools_iff {σ : Type} (l : List (String × Tool σ)) (p : String × Tool σ) :
    p ∈ l.foldr insertSorted [] ↔ p ∈ l := by
  induction l with
  | nil => simp
  | cons x xs ih => simp [List.foldr_cons, mem_insertSorted_iff, ih]

/-- An entry's tool name always shows up in `list_tool_names`. -/
theorem name_mem_list_tool_names {σ : Type} (reg : ToolRegistry σ) (p : String × Tool σ)
    (hp : p ∈ reg._tools) : p.2.name ∈ reg.list_tool_names := by
  simp only [ToolRegistry.list_tool_names, ToolRegistry.list_tools, List.map_map,
    List.mem_map]
  exact ⟨p, (mem_sortTools_iff reg._tools p).mpr hp, rfl⟩

/-- A name absent from `list_tool_names` (for a registry whose keys are the
tool names) has no entry and no key occurrences. -/
theorem lookup_and_count_of_not_names {σ : Type} (reg : ToolRegistry σ) (n : String)
    (hkeys : ∀ p ∈ reg._tools, p.1 = p.2.name)
    (hn : n ∉ reg.list_tool_names) :
    lookupTool reg._tools n = none ∧ countKey reg._tools n = 0 := by
  have hne : ∀ p ∈ reg._tools, p.1 ≠ n := by
    intro p hp heq
    have hmem := name_mem_list_tool_names reg p hp
    rw [← hkeys p hp, heq] at hmem
    exact hn hmem
  refine ⟨lookupTool_none_of_keys reg._tools n hne, ?_⟩
  simp only [countKey, List.length_eq_zero]
  rw [List.filter_eq_nil_iff]
  intro p hp
  simpa using hne p hp

/-- Spec-registration fold, phase "name already taken": every later spec
whose namespaced name is `n` is dropped with exactly one collision error, and
the registry's entry at `n` never changes. -/
theorem registerSpecs_mem {σ : Type} (runProcess : PluginProc σ) (n : String)
    (specs : List PluginToolSpec) :
    ∀ (reg : ToolRegistry σ) (existing : List String) (result : PluginLoadResult),
      n ∈ existing →
      lookupTool (specs.foldl (registerSpecStep runProcess) (reg, existing, result)).1._tools n
          = lookupTool reg._tools n ∧
      countKey (specs.foldl (registerSpecStep runProcess) (reg, existing, result)).1._tools n
          = countKey reg._tools n ∧
      n ∈ (specs.foldl (registerSpecStep runProcess) (reg, existing, result)).2.1 ∧
      ((specs.foldl (registerSpecStep runProcess) (reg, existing, result)).2.2.errors.count
            (dupToolMsg n)
          = result.errors.count (dupToolMsg n)
            + (specs.filter (fun s => namespacedName s = n)).length) := by
  induction specs with
  | nil =>
    intro reg existing result hmem
    exact ⟨rfl, rfl, hmem, by simp⟩
  | cons spec rest ih =>
    intro reg existing result hmem
    simp only [List.foldl_cons]
    by_cases hmemb : namespacedName spec ∈ existing
    · have hstep : registerSpecStep runProcess (reg, existing, result) spec
          = (reg, existing,
             { result with errors := result.errors ++ [dupToolMsg (namespacedName spec)] }) := by
        simp [registerSpecStep, hmemb, dupToolMsg]
      rw [hstep]
      obtain ⟨h1, h2, h3, h4⟩ := ih reg existing
        { result with errors := result.errors ++ [dupToolMsg (namespacedName spec)] } hmem
      refine ⟨h1, h2, h3, ?_⟩
      rw [h4, List.filter_cons]
      by_cases hn : namespacedName spec = n
      · rw [if_pos (by simpa using hn), hn]
        have herr : ({ result with errors := result.errors ++ [dupToolMsg n] }
            : PluginLoadResult).errors = result.errors ++ [dupToolMsg n] := rfl
        have hone : List.count (dupToolMsg n) [dupToolMsg n] = 1 := by simp
        simp only [herr, List.count_append, hone, List.length_cons]
        omega
      · rw [if_neg (by simpa using hn)]
        have herr : ({ result with
            errors := result.errors ++ [dupToolMsg (namespacedName spec)] }
            : PluginLoadResult).errors
            = result.errors ++ [dupToolMsg (namespacedName spec)] := rfl
        have hzero : List.count (dupToolMsg n) [dupToolMsg (namespacedName spec)] = 0 := by
          simp only [List.count_eq_zero, List.mem_singleton]
          exact fun hc => hn (dupToolMsg_inj hc.symm)
        simp only [herr, List.count_append, hzero]
        omega
    · have hn : namespacedName spec ≠ n := fun hc => hmemb (hc ▸ hmem)
      have hstep : registerSpecStep runProcess (reg, existing, result) spec
          = (reg.register (pluginToolOf runProcess spec), existing ++ [namespacedName spec],
             { result with tool_names := result.tool_names ++ [namespacedName spec] }) := by
        simp [registerSpecStep, hmemb]
      rw [hstep]
      obtain ⟨h1, h2, h3, h4⟩ := ih (reg.register (pluginToolOf runProcess spec))
        (existing ++ [namespacedName spec])
        { result with tool_names := result.tool_names ++ [namespacedName spec] }
        (List.mem_append_left _ hmem)
      refine ⟨?_, ?_, h3, ?_⟩
      · rw [h1]
        exact lookupTool_insertTool_ne reg._tools (pluginToolOf runProcess spec) n hn
      · rw [h2]
        exact countKey_insertTool_ne reg._tools (pluginToolOf runProcess spec) n hn
      · rw [h4, List.filter_cons, if_neg (by simpa using hn)]

/-- Spec-registration fold, phase "name still fresh": the first spec hitting
`n` registers its tool once; every later hit is dropped with one collision
error each. -/
theorem registerSpecs_fresh {σ : Type} (runProcess : PluginProc σ) (n : String)
    (specs : List PluginToolSpec) :
    ∀ (reg : ToolRegistry σ) (existing : List String) (result : PluginLoadResult),
      n ∉ existing →
      lookupTool reg._tools n = none →
      countKey reg._tools n = 0 →
      ((specs.filter (fun s => namespacedName s = n) = [] →
        lookupTool (specs.foldl (registerSpecStep runProcess) (reg, existing, result)).1._tools n
            = none ∧
        countKey (specs.foldl (registerSpecStep runProcess) (reg, existing, result)).1._tools n
            = 0 ∧
        n ∉ (specs.foldl (registerSpecStep runProcess) (reg, existing, result)).2.1 ∧
        (specs.foldl (registerSpecStep runProcess) (reg, existing, result)).2.2.errors.count
              (dupToolMsg n)
            = result.errors.count (dupToolMsg n)) ∧
      (∀ first dups, specs.filter (fun s => namespacedName s = n) = first :: dups →
        lookupTool (specs.foldl (registerSpecStep runProcess) (reg, existing, result)).1._tools n
            = some (pluginToolOf runProcess first) ∧
        countKey (specs.foldl (registerSpecStep runProcess) (reg, existing, result)).1._tools n
            = 1 ∧
        n ∈ (specs.foldl (registerSpecStep runProcess) (reg, existing, result)).2.1 ∧
        (specs.foldl (registerSpecStep runProcess) (reg, existing, result)).2.2.errors.count
              (dupToolMsg n)
            = result.errors.count (dupToolMsg n) + dups.length)) := by
  induction specs with
  | nil =>
    intro reg existing result hnotin hlook hcount
    refine ⟨fun _ => ⟨hlook, hcount, hnotin, rfl⟩, fun first dups hfd => ?_⟩
    simp at hfd
  | cons spec rest ih =>
    intro reg existing result hnotin hlook hcount
    simp only [List.foldl_cons]
    by_cases hn : namespacedName spec = n
    · have hmemb : namespacedName spec ∉ existing := by rw [hn]; exact hnotin
      have hstep : registerSpecStep runProcess (reg, existing, result) spec
          = (reg.register (pluginToolOf runProcess spec), existing ++ [namespacedName spec],
             { result with tool_names := result.tool_names ++ [namespacedName spec] }) := by
        simp [registerSpecStep, hmemb]
      rw [hstep]
      have hmem' : n ∈ existing ++ [namespacedName spec] := by
        rw [hn]
        exact List.mem_append_right _ (List.mem_singleton.mpr rfl)
      obtain ⟨h1, h2, h3, h4⟩ := registerSpecs_mem runProcess n rest
        (reg.register (pluginToolOf runProcess spec))
        (existing ++ [namespacedName spec])
        { result with tool_names := result.tool_names ++ [namespacedName spec] } hmem'
      have hname : (pluginToolOf runProcess spec).name = namespacedName spec := rfl
      have hlook' : lookupTool (reg.register (pluginToolOf runProcess spec))._tools n
          = some (pluginToolOf runProcess spec) := by
        have := lookupTool_insertTool_self reg._tools (pluginToolOf runProcess spec)
        rwa [hname, hn] at this
      have hcount' : countKey (reg.register (pluginToolOf runProcess spec))._tools n = 1 := by
        have := countKey_insertTool_self reg._tools (pluginToolOf runProcess spec)
          (by rwa [hname, hn])
        rwa [hname, hn] at this
      constructor
      · intro hnil
        rw [List.filter_cons, if_pos (by simpa using hn)] at hnil
        exact absurd hnil (by simp)
      · intro first dups hfd
        rw [List.filter_cons, if_pos (by simpa using hn)] at hfd
        injection hfd with hfirst hdups
        subst hfirst
        refine ⟨by rw [h1]; exact hlook', by rw [h2]; exact hcount', h3, ?_⟩
        rw [h4, ← hdups]
    · have hfilter : List.filter (fun s => decide (namespacedName s = n)) (spec :: rest)
          = rest.filter (fun s => decide (namespacedName s = n)) := by
        rw [List.filter_cons, if_neg (by simpa using hn)]
      by_cases hmemb : namespacedName spec ∈ existing
      · have hstep : registerSpecStep runProcess (reg, existing, result) spec
            = (reg, existing,
               { result with
                  errors := result.errors ++ [dupToolMsg (namespacedName spec)] }) := by
          simp [registerSpecStep, hmemb, dupToolMsg]
        rw [hstep]
        have hne : (dupToolMsg (namespacedName spec) == dupToolMsg n) = false :=
          beq_eq_false_iff_ne.mpr (fun hc => hn (dupToolMsg_inj hc))
        have hcnt : ({ result with
            errors := result.errors ++ [dupToolMsg (namespacedName spec)] }
              : PluginLoadResult).errors.count (dupToolMsg n)
            = result.errors.count (dupToolMsg n) := by
          have herr : ({ result with
              errors := result.errors ++ [dupToolMsg (namespacedName spec)] }
              : PluginLoadResult).errors
              = result.errors ++ [dupToolMsg (namespacedName spec)] := rfl
          have hzero : List.count (dupToolMsg n) [dupToolMsg (namespacedName spec)] = 0 := by
            simp only [List.count_eq_zero, List.mem_singleton]
            exact fun hc => hn (dupToolMsg_inj hc.symm)
          simp only [herr, List.count_append, hzero]
          omega
        obtain ⟨hA, hB⟩ := ih reg existing
          { result with errors := result.errors ++ [dupToolMsg (namespacedName spec)] }
          hnotin hlook hcount
        constructor
        · intro hnil
          rw [hfilter] at hnil
          obtain ⟨g1, g2, g3, g4⟩ := hA hnil
          exact ⟨g1, g2, g3, by rw [g4, hcnt]⟩
        · intro first dups hfd
          rw [hfilter] at hfd
          obtain ⟨g1, g2, g3, g4⟩ := hB first dups hfd
          exact ⟨g1, g2, g3, by rw [g4, hcnt]⟩
      · have hstep : registerSpecStep runProcess (reg, existing, result) spec
            = (reg.register (pluginToolOf runProcess spec), existing ++ [namespacedName spec],
               { result with tool_names := result.tool_names ++ [namespacedName spec] }) := by
          simp [registerSpecStep, hmemb]
        rw [hstep]
        have hnotin' : n ∉ existing ++ [namespacedName spec] := by
          intro hmem
          rcases List.mem_append.mp hmem with hmem | hmem
          · exact hnotin hmem
          · exact hn ((List.mem_singleton.mp hmem).symm)
        have hlook' : lookupTool (reg.register (pluginToolOf runProcess spec))._tools n
            = none := by
          rw [show (reg.register (pluginToolOf runProcess spec))._tools
              = insertTool reg._tools (pluginToolOf runProcess spec) from rfl]
          rw [lookupTool_insertTool_ne reg._tools (pluginToolOf runProcess spec) n hn]
          exact hlook
        have hcount' : countKey (reg.register (pluginToolOf runProcess spec))._tools n
            = 0 := by
          rw [show (reg.register (pluginToolOf runProcess spec))._tools
              = insertTool reg._tools (pluginToolOf runProcess spec) from rfl]
          rw [countKey_insertTool_ne reg._tools (pluginToolOf runProcess spec) n hn]
          exact hcount
        obtain ⟨hA, hB⟩ := ih (reg.register (pluginToolOf runProcess spec))
          (existing ++ [namespacedName spec])
          { result with tool_names := result.tool_names ++ [namespacedName spec] }
          hnotin' hlook' hcount'
        constructor
        · intro hnil
          rw [hfilter] at hnil
          exact hA hnil
        · intro first dups hfd
          rw [hfilter] at hfd
          exact hB first dups hfd

/-- Manifest-loading fold, phase "name already taken" (all manifests parsed):
the registry entry at `n` is stable and each later hit reports one collision
error. -/
theorem loadManifests_mem {σ : Type} (runProcess : PluginProc σ) (n : String)
    (ms : List (String × ParsedManifest)) :
    ∀ (reg : ToolRegistry σ) (existing : List String) (result : PluginLoadResult),
      n ∈ existing →
      lookupTool ((ms.map (fun pm => (pm.1, Except.ok (ε := String) pm.2))).foldl
          (loadManifestStep runProcess) (reg, existing, result)).1._tools n
        = lookupTool reg._tools n ∧
      countKey ((ms.map (fun pm => (pm.1, Except.ok (ε := String) pm.2))).foldl
          (loadManifestStep runProcess) (reg, existing, result)).1._tools n
        = countKey reg._tools n ∧
      n ∈ ((ms.map (fun pm => (pm.1, Except.ok (ε := String) pm.2))).foldl
          (loadManifestStep runProcess) (reg, existing, result)).2.1 ∧
      ((ms.map (fun pm => (pm.1, Except.ok (ε := String) pm.2))).foldl
          (loadManifestStep runProcess) (reg, existing, result)).2.2.errors.count (dupToolMsg n)
        = result.errors.count (dupToolMsg n)
          + (((ms.map (fun pm => pm.2.tools)).flatten).filter
              (fun s => namespacedName s = n)).length := by
  induction ms with
  | nil =>
    intro reg existing result hmem
    exact ⟨rfl, rfl, hmem, by simp⟩
  | cons pm rest ih =>
    intro reg existing result hmem
    obtain ⟨path, m⟩ := pm
    simp only [List.map_cons, List.foldl_cons]
    have hstep : loadManifestStep runProcess (reg, existing, result) (path, Except.ok m)
        = ((m.tools.foldl (registerSpecStep runProcess) (reg, existing, result)).1,
           (m.tools.foldl (registerSpecStep runProcess) (reg, existing, result)).2.1,
           { (m.tools.foldl (registerSpecStep runProcess) (reg, existing, result)).2.2 with
              commands := (m.tools.foldl (registerSpecStep runProcess)
                (reg, existing, result)).2.2.commands ++ m.commands
              skills := (m.tools.foldl (registerSpecStep runProcess)
                (reg, existing, result)).2.2.skills ++ m.skills }) := rfl
    rw [hstep]
    obtain ⟨s1, s2, s3, s4⟩ := registerSpecs_mem runProcess n m.tools reg existing result hmem
    obtain ⟨h1, h2, h3, h4⟩ := ih
      (m.tools.foldl (registerSpecStep runProcess) (reg, existing, result)).1
      (m.tools.foldl (registerSpecStep runProcess) (reg, existing, result)).2.1
      { (m.tools.foldl (registerSpecStep runProcess) (reg, existing, result)).2.2 with
          commands := (m.tools.foldl (registerSpecStep runProcess)
            (reg, existing, result)).2.2.commands ++ m.commands
          skills := (m.tools.foldl (registerSpecStep runProcess)
            (reg, existing, result)).2.2.skills ++ m.skills } s3
    refine ⟨by rw [h1, s1], by rw [h2, s2], h3, ?_⟩
    rw [h4]
    have herr : ({ (m.tools.foldl (registerSpecStep runProcess) (reg, existing, result)).2.2 with
        commands := (m.tools.foldl (registerSpecStep runProcess)
          (reg, existing, result)).2.2.commands ++ m.commands
        skills := (m.tools.foldl (registerSpecStep runProcess)
          (reg, existing, result)).2.2.skills ++ m.skills } : PluginLoadResult).errors
        = (m.tools.foldl (registerSpecStep runProcess) (reg, existing, result)).2.2.errors := rfl
    rw [herr, s4]
    simp [List.filter_append, List.length_append]
    omega

/-- Manifest-loading fold, phase "name still fresh" (all manifests parsed):
the first hit across all manifests registers once; later hits each report one
collision error. -/
theorem loadManifests_fresh {σ : Type} (runProcess : PluginProc σ) (n : String)
    (ms : List (String × ParsedManifest)) :
    ∀ (reg : ToolRegistry σ) (existing : List String) (result : PluginLoadResult),
      n ∉ existing →
      lookupTool reg._tools n = none →
      countKey reg._tools n = 0 →
      (∀ first dups,
        (((ms.map (fun pm => pm.2.tools)).flatten).filter (fun s => namespacedName s = n))
            = first :: dups →
        lookupTool ((ms.map (fun pm => (pm.1, Except.ok (ε := String) pm.2))).foldl
            (loadManifestStep runProcess) (reg, existing, result)).1._tools n
          = some (pluginToolOf runProcess first) ∧
        countKey ((ms.map (fun pm => (pm.1, Except.ok (ε := String) pm.2))).foldl
            (loadManifestStep runProcess) (reg, existing, result)).1._tools n
          = 1 ∧
        ((ms.map (fun pm => (pm.1, Except.ok (ε := String) pm.2))).foldl
            (loadManifestStep runProcess) (reg, existing, result)).2.2.errors.count
              (dupToolMsg n)
          = result.errors.count (dupToolMsg n) + dups.length) := by
  induction ms with
  | nil =>
    intro reg existing result hnotin hlook hcount first dups hfd
    simp at hfd
  | cons pm rest ih =>
    intro reg existing result hnotin hlook hcount first dups hfd
    obtain ⟨path, m⟩ := pm
    simp only [List.map_cons, List.foldl_cons]
    have hstep : loadManifestStep runProcess (reg, existing, result) (path, Except.ok m)
        = ((m.tools.foldl (registerSpecStep runProcess) (reg, existing, result)).1,
           (m.tools.foldl (registerSpecStep runProcess) (reg, existing, result)).2.1,
           { (m.tools.foldl (registerSpecStep runProcess) (reg, existing, result)).2.2 with
              commands := (m.tools.foldl (registerSpecStep runProcess)
                (reg, existing, result)).2.2.commands ++ m.commands
              skills := (m.tools.foldl (registerSpecStep runProcess)
                (reg, existing, result)).2.2.skills ++ m.skills }) := rfl
    rw [hstep]
    have herr : ({ (m.tools.foldl (registerSpecStep runProcess) (reg, existing, result)).2.2 with
        commands := (m.tools.foldl (registerSpecStep runProcess)
          (reg, existing, result)).2.2.commands ++ m.commands
        skills := (m.tools.foldl (registerSpecStep runProcess)
          (reg, existing, result)).2.2.skills ++ m.skills } : PluginLoadResult).errors
        = (m.tools.foldl (registerSpecStep runProcess) (reg, existing, result)).2.2.errors := rfl
    simp only [List.map_cons, List.flatten_cons, List.filter_append] at hfd
    obtain ⟨hA, hB⟩ := registerSpecs_fresh runProcess n m.tools reg existing result
      hnotin hlook hcount
    cases hmt : m.tools.filter (fun s => namespacedName s = n) with
    | nil =>
      rw [hmt, List.nil_append] at hfd
      obtain ⟨g1, g2, g3, g4⟩ := hA hmt
      obtain ⟨f1, f2, f4⟩ := ih
        (m.tools.foldl (registerSpecStep runProcess) (reg, existing, result)).1
        (m.tools.foldl (registerSpecStep runProcess) (reg, existing, result)).2.1
        { (m.tools.foldl (registerSpecStep runProcess) (reg, existing, result)).2.2 with
            commands := (m.tools.foldl (registerSpecStep runProcess)
              (reg, existing, result)).2.2.commands ++ m.commands
            skills := (m.tools.foldl (registerSpecStep runProcess)
              (reg, existing, result)).2.2.skills ++ m.skills } g3 g1 g2 first dups hfd
      refine ⟨f1, f2, ?_⟩
      rw [f4, herr, g4]
    | cons mfirst mdups =>
      rw [hmt, List.cons_append] at hfd
      injection hfd with hfirst hdups
      obtain ⟨g1, g2, g3, g4⟩ := hB mfirst mdups hmt
      obtain ⟨f1, f2, f3, f4⟩ := loadManifests_mem runProcess n rest
        (m.tools.foldl (registerSpecStep runProcess) (reg, existing, result)).1
        (m.tools.foldl (registerSpecStep runProcess) (reg, existing, result)).2.1
        { (m.tools.foldl (registerSpecStep runProcess) (reg, existing, result)).2.2 with
            commands := (m.tools.foldl (registerSpecStep runProcess)
              (reg, existing, result)).2.2.commands ++ m.commands
            skills := (m.tools.foldl (registerSpecStep runProcess)
              (reg, existing, result)).2.2.skills ++ m.skills } g3
      refine ⟨?_, ?_, ?_⟩
      · rw [f1, g1, hfirst]
      · rw [f2, g2]
      · rw [f4, herr, g4, ← hdups]
        simp [List.length_append]
        omega

/-- **C8.** When plugin loading (from parsed manifests) meets several
external tools whose namespaced names collide on a name not already in the
registry, exactly one registration remains active — the tool built from the
first declaration — and exactly one collision error is reported per later
duplicate; the later entries are dropped, never overwriting the earlier
one. -/
theorem C8_plugin_collision {σ : Type} (runProcess : PluginProc σ)
    (registry : ToolRegistry σ) (manifests : List (String × ParsedManifest)) (n : String)
    (hkeys : ∀ p ∈ registry._tools, p.1 = p.2.name)
    (hn : n ∉ registry.list_tool_names)
    (first : PluginToolSpec) (dups : List PluginToolSpec)
    (hhits : (((manifests.map (fun pm => pm.2.tools)).flatten).filter
        (fun s => namespacedName s = n)) = first :: dups) :
    lookupTool (load_plugins runProcess registry
        (manifests.map (fun pm => (pm.1, Except.ok pm.2)))).1._tools n
      = some (pluginToolOf runProcess first) ∧
    countKey (load_plugins runProcess registry
        (manifests.map (fun pm => (pm.1, Except.ok pm.2)))).1._tools n = 1 ∧
    (load_plugins runProcess registry
        (manifests.map (fun pm => (pm.1, Except.ok pm.2)))).2.errors.count (dupToolMsg n)
      = dups.length := by
  obtain ⟨hlook0, hcount0⟩ := lookup_and_count_of_not_names registry n hkeys hn
  obtain ⟨h1, h2, h4⟩ := loadManifests_fresh runProcess n manifests registry
    registry.list_tool_names ⟨[], [], [], []⟩ hn hlook0 hcount0 first dups hhits
  refine ⟨h1, h2, ?_⟩
  rw [show (load_plugins runProcess registry
      (manifests.map (fun pm => (pm.1, Except.ok pm.2)))).2.errors
      = ((manifests.map (fun pm => (pm.1, Except.ok (ε := String) pm.2))).foldl
          (loadManifestStep runProcess)
          (registry, registry.list_tool_names, ⟨[], [], [], []⟩)).2.2.errors from rfl]
  rw [h4]
  simp

/-- Witness for C8: loading two manifests that both declare `demo/deploy`
registers the first declaration's tool once under `demo__deploy` and reports
exactly one collision error. -/
theorem C8_plugin_collision_witness :
    lookupTool (load_plugins demoProc emptyDemoReg
        (demoManifestList.map (fun pm => (pm.1, Except.ok pm.2)))).1._tools "demo__deploy"
      = some (pluginToolOf demoProc demoSpecA) ∧
    countKey (load_plugins demoProc emptyDemoReg
        (demoManifestList.map (fun pm => (pm.1, Except.ok pm.2)))).1._tools "demo__deploy" = 1 ∧
    (load_plugins demoProc emptyDemoReg
        (demoManifestList.map (fun pm => (pm.1, Except.ok pm.2)))).2.errors.count
        (dupToolMsg "demo__deploy") = 1 :=
  C8_plugin_collision demoProc emptyDemoReg demoManifestList "demo__deploy"
    (fun p hp => absurd hp (List.not_mem_nil p))
    (List.not_mem_nil "demo__deploy")
    demoSpecA [demoSpecB] rfl

/-- A fully-answered conversation is in particular well linked. -/
theorem wlAuxC_imp_wlAux (msgs : List Message) :
    ∀ pending, wlAuxC pending msgs = true → wlAux pending msgs = true := by
  induction msgs with
  | nil => intro pending _; cases pending <;> rfl
  | cons msg rest ih =>
    intro pending h
    cases pending with
    | nil =>
      cases msg with
      | system c => exact ih [] h
      | user c => exact ih [] h
      | assistant c r tcs => exact ih tcs h
      | tool id c => simp [wlAuxC] at h
    | cons tc tcs =>
      cases msg with
      | system c => simp [wlAuxC] at h
      | user c => simp [wlAuxC] at h
      | assistant c r tcs' => simp [wlAuxC] at h
      | tool id c =>
        simp only [wlAuxC] at h
        simp only [wlAux]
        by_cases hid : id = tc.id
        · rw [if_pos hid] at h ⊢
          exact ih tcs h
        · rw [if_neg hid] at h
          exact absurd h (by simp)

/-- Scanning a fully-answered block then a tail is scanning the tail from
scratch, in both the lenient and the strict reading. -/
theorem wlAuxC_append (msgs : List Message) :
    ∀ pending tail, wlAuxC pending msgs = true →
      wlAux pending (msgs ++ tail) = wlAux [] tail ∧
      wlAuxC pending (msgs ++ tail) = wlAuxC [] tail := by
  induction msgs with
  | nil =>
    intro pending tail h
    have hp : pending = [] := by
      cases pending with
      | nil => rfl
      | cons tc tcs => simp [wlAuxC] at h
    subst hp
    exact ⟨rfl, rfl⟩
  | cons msg rest ih =>
    intro pending tail h
    cases pending with
    | nil =>
      cases msg with
      | system c => exact ih [] tail h
      | user c => exact ih [] tail h
      | assistant c r tcs => exact ih tcs tail h
      | tool id c => simp [wlAuxC] at h
    | cons tc tcs =>
      cases msg with
      | system c => simp [wlAuxC] at h
      | user c => simp [wlAuxC] at h
      | assistant c r tcs' => simp [wlAuxC] at h
      | tool id c =>
        simp only [wlAuxC] at h
        by_cases hid : id = tc.id
        · rw [if_pos hid] at h
          simp only [List.cons_append, wlAux, wlAuxC]
          rw [if_pos hid, if_pos hid]
          exact ih tcs tail h
        · rw [if_neg hid] at h
          exact absurd h (by simp)

/-- A list of tool messages answering a prefix of the pending calls, in
order, is well linked after them. -/
theorem wlAux_toolMsgs (answered : List (String × String)) :
    ∀ (tcs : List ToolCall) (remaining : List String),
      tcs.map ToolCall.id = answered.map Prod.fst ++ remaining →
      wlAux tcs (answered.map (fun p => Message.tool p.1 p.2)) = true := by
  induction answered with
  | nil => intro tcs remaining _; cases tcs <;> rfl
  | cons p rest ih =>
    intro tcs remaining h
    cases tcs with
    | nil => simp at h
    | cons tc tcs' =>
      simp only [List.map_cons, List.cons_append] at h
      injection h with h1 h2
      simp only [List.map_cons, wlAux]
      rw [if_pos h1.symm]
      exact ih tcs' remaining h2

/-- A list of tool messages answering exactly the pending calls closes the
block. -/
theorem wlAuxC_toolMsgs (answered : List (String × String)) :
    ∀ tcs : List ToolCall,
      tcs.map ToolCall.id = answered.map Prod.fst →
      wlAuxC tcs (answered.map (fun p => Message.tool p.1 p.2)) = true := by
  induction answered with
  | nil =>
    intro tcs h
    simp only [List.map_nil, List.map_eq_nil_iff] at h
    subst h
    rfl
  | cons p rest ih =>
    intro tcs h
    cases tcs with
    | nil => simp at h
    | cons tc tcs' =>
      simp only [List.map_cons] at h
      injection h with h1 h2
      simp only [List.map_cons, wlAuxC]
      rw [if_pos h1.symm]
      exact ih tcs' h2

/-- Shape of the tool-call loop's output: it appends one tool message per
answered call, tagged with the call ids in order; the answered calls form a
prefix of the call list, and the whole list when no hook faulted. -/
theorem execToolCalls_shape {σ : Type} (reg : ToolRegistry σ) (cb : AgentCallbacks)
    (calls : List ToolCall) :
    ∀ (msgs : List Message) (s : σ),
      ∃ (answered : List (String × String)) (remaining : List String),
        (execToolCalls reg cb calls msgs s).2.1
          = msgs ++ answered.map (fun p => Message.tool p.1 p.2) ∧
        calls.map ToolCall.id = answered.map Prod.fst ++ remaining ∧
        ((execToolCalls reg cb calls msgs s).1 = none →
          calls.map ToolCall.id = answered.map Prod.fst) := by
  induction calls with
  | nil =>
    intro msgs s
    exact ⟨[], [], by simp [execToolCalls], by simp, fun _ => by simp⟩
  | cons call rest ih =>
    intro msgs s
    simp only [execToolCalls]
    cases h1 : fire2 cb.on_tool_call call.name call.arguments with
    | error e =>
      refine ⟨[], call.id :: rest.map ToolCall.id, by simp, by simp, fun hc => ?_⟩
      exact absurd hc (by simp)
    | ok u =>
      cases h2 : fire2 cb.on_tool_result call.name
          (reg.execute call.name call.argumentsJson s).1 with
      | error e =>
        refine ⟨[], call.id :: rest.map ToolCall.id, by simp, by simp, fun hc => ?_⟩
        exact absurd hc (by simp)
      | ok u =>
        obtain ⟨answered, remaining, ha, hb, hc⟩ := ih
          (msgs ++ [Message.tool call.id (reg.execute call.name call.argumentsJson s).1])
          (reg.execute call.name call.argumentsJson s).2
        refine ⟨(call.id, (reg.execute call.name call.argumentsJson s).1) :: answered,
          remaining, ?_, ?_, ?_⟩
        · rw [ha]
          simp
        · simp [hb]
        · intro hn
          simp [hc hn]

/-- With non-faulting hooks the tool-call loop never aborts. -/
theorem execToolCalls_nofault {σ : Type} (reg : ToolRegistry σ) (cb : AgentCallbacks)
    (hcb : neverFaults cb) (calls : List ToolCall) :
    ∀ (msgs : List Message) (s : σ), (execToolCalls reg cb calls msgs s).1 = none := by
  induction calls with
  | nil => intro msgs s; rfl
  | cons call rest ih =>
    intro msgs s
    simp only [execToolCalls, hcb.2.2.1, hcb.2.2.2]
    exact ih _ _

/-- With non-faulting hooks, the tool-call loop does not depend on which
hooks are installed. -/
theorem execToolCalls_cb_eq {σ : Type} (reg : ToolRegistry σ) (cb cb' : AgentCallbacks)
    (hcb : neverFaults cb) (hcb' : neverFaults cb') (calls : List ToolCall) :
    ∀ (msgs : List Message) (s : σ),
      execToolCalls reg cb calls msgs s = execToolCalls reg cb' calls msgs s := by
  induction calls with
  | nil => intro msgs s; rfl
  | cons call rest ih =>
    intro msgs s
    simp only [execToolCalls, hcb.2.2.1, hcb.2.2.2, hcb'.2.2.1, hcb'.2.2.2]
    exact ih _ _

/-- Invariant of the agent loop: from a conversation with every assistant
block fully answered, the final conversation is well linked — and fully
answered again whenever no hook fault aborted the run. -/
theorem runLoop_wellLinked {σ : Type} (model : ChatModel) (reg : ToolRegistry σ)
    (cb : AgentCallbacks) (fuel : Nat) :
    ∀ (msgs : List Message) (s : σ) (calls : Nat),
      wlClosed msgs = true →
      wellLinked (runLoop model reg cb fuel msgs s calls).2.1 = true ∧
      ((∀ e, (runLoop model reg cb fuel msgs s calls).1 ≠ RunOutcome.exn e) →
        wlClosed (runLoop model reg cb fuel msgs s calls).2.1 = true) := by
  induction fuel with
  | zero =>
    intro msgs s calls h
    exact ⟨wlAuxC_imp_wlAux msgs [] h, fun _ => h⟩
  | succ fuel ih =>
    intro msgs s calls h
    simp only [runLoop]
    cases h1 : fire1 cb.on_status "Thinking..." with
    | error e => exact ⟨wlAuxC_imp_wlAux msgs [] h, fun hne => absurd rfl (hne e)⟩
    | ok u =>
      cases h2 : fire1 cb.on_status "" with
      | error e => exact ⟨wlAuxC_imp_wlAux msgs [] h, fun hne => absurd rfl (hne e)⟩
      | ok u2 =>
        cases h3 : (match (model msgs reg.as_openai_tools).reasoning_content with
                | some r => if r = "" then Except.ok () else fire1 cb.on_thinking r
                | none => Except.ok ()) with
        | error e => exact ⟨wlAuxC_imp_wlAux msgs [] h, fun hne => absurd rfl (hne e)⟩
        | ok u3 =>
          by_cases hempty : (model msgs reg.as_openai_tools).tool_calls.isEmpty
          · rw [if_pos hempty]
            have htcs : (model msgs reg.as_openai_tools).tool_calls = [] :=
              List.isEmpty_iff.mp hempty
            have hclosed : wlClosed
                (msgs ++ [assistantRecord (model msgs reg.as_openai_tools)]) = true := by
              have hap := (wlAuxC_append msgs []
                [assistantRecord (model msgs reg.as_openai_tools)] h).2
              rw [wlClosed, hap]
              simp [wlAuxC, assistantRecord, htcs]
            exact ⟨wlAuxC_imp_wlAux _ [] hclosed, fun _ => hclosed⟩
          · rw [if_neg hempty]
            obtain ⟨answered, remaining, ha, hb, hc⟩ := execToolCalls_shape reg cb
              (model msgs reg.as_openai_tools).tool_calls
              (msgs ++ [assistantRecord (model msgs reg.as_openai_tools)]) s
            cases hexec : execToolCalls reg cb (model msgs reg.as_openai_tools).tool_calls
                (msgs ++ [assistantRecord (model msgs reg.as_openai_tools)]) s with
            | mk fault rest2 =>
              obtain ⟨msgs2, s2⟩ := rest2
              rw [hexec] at ha hc
              simp only at ha hc
              cases fault with
              | some e =>
                have hwl : wellLinked msgs2 = true := by
                  rw [wellLinked, ha, List.append_assoc]
                  rw [(wlAuxC_append msgs []
                    ([assistantRecord (model msgs reg.as_openai_tools)]
                      ++ answered.map (fun p => Message.tool p.1 p.2)) h).1]
                  show wlAux (model msgs reg.as_openai_tools).tool_calls
                    (answered.map (fun p => Message.tool p.1 p.2)) = true
                  exact wlAux_toolMsgs answered _ remaining hb
                exact ⟨hwl, fun hne => absurd rfl (hne e)⟩
              | none =>
                have hclosed2 : wlClosed msgs2 = true := by
                  rw [wlClosed, ha, List.append_assoc]
                  rw [(wlAuxC_append msgs []
                    ([assistantRecord (model msgs reg.as_openai_tools)]
                      ++ answered.map (fun p => Message.tool p.1 p.2)) h).2]
                  show wlAuxC (model msgs reg.as_openai_tools).tool_calls
                    (answered.map (fun p => Message.tool p.1 p.2)) = true
                  exact wlAuxC_toolMsgs answered _ (hc rfl)
                exact ih msgs2 s2 (calls + 1) hclosed2

/-- The agent loop only appends messages, and never appends a system
message. -/
theorem runLoop_append {σ : Type} (model : ChatModel) (reg : ToolRegistry σ)
    (cb : AgentCallbacks) (fuel : Nat) :
    ∀ (msgs : List Message) (s : σ) (calls : Nat),
      ∃ suffix : List Message,
        (runLoop model reg cb fuel msgs s calls).2.1 = msgs ++ suffix ∧
        suffix.all nonSystem = true := by
  induction fuel with
  | zero => intro msgs s calls; exact ⟨[], by simp [runLoop], rfl⟩
  | succ fuel ih =>
    intro msgs s calls
    simp only [runLoop]
    cases h1 : fire1 cb.on_status "Thinking..." with
    | error e => exact ⟨[], by simp, rfl⟩
    | ok u =>
      cases h2 : fire1 cb.on_status "" with
      | error e => exact ⟨[], by simp, rfl⟩
      | ok u2 =>
        cases h3 : (match (model msgs reg.as_openai_tools).reasoning_content with
                | some r => if r = "" then Except.ok () else fire1 cb.on_thinking r
                | none => Except.ok ()) with
        | error e => exact ⟨[], by simp, rfl⟩
        | ok u3 =>
          by_cases hempty : (model msgs reg.as_openai_tools).tool_calls.isEmpty
          · rw [if_pos hempty]
            exact ⟨[assistantRecord (model msgs reg.as_openai_tools)], by simp,
              by simp [nonSystem, assistantRecord]⟩
          · rw [if_neg hempty]
            obtain ⟨answered, remaining, ha, hb, hc⟩ := execToolCalls_shape reg cb
              (model msgs reg.as_openai_tools).tool_calls
              (msgs ++ [assistantRecord (model msgs reg.as_openai_tools)]) s
            cases hexec : execToolCalls reg cb (model msgs reg.as_openai_tools).tool_calls
                (msgs ++ [assistantRecord (model msgs reg.as_openai_tools)]) s with
            | mk fault rest2 =>
              obtain ⟨msgs2, s2⟩ := rest2
              rw [hexec] at ha
              simp only at ha
              cases fault with
              | some e =>
                refine ⟨[assistantRecord (model msgs reg.as_openai_tools)]
                  ++ answered.map (fun p => Message.tool p.1 p.2), ?_, ?_⟩
                · rw [ha, List.append_assoc]
                · simp [List.all_append, nonSystem, assistantRecord, List.all_map,
                    Function.comp]
                  intro x x1 x2 _ hx
                  subst hx
                  rfl
              | none =>
                obtain ⟨suffix2, hs1, hs2⟩ := ih msgs2 s2 (calls + 1)
                refine ⟨([assistantRecord (model msgs reg.as_openai_tools)]
                  ++ answered.map (fun p => Message.tool p.1 p.2)) ++ suffix2, ?_, ?_⟩
                · rw [hs1, ha]
                  simp [List.append_assoc]
                · simp [List.all_append, hs2, nonSystem, assistantRecord, List.all_map,
                    Function.comp]
                  intro x x1 x2 _ hx
                  subst hx
                  rfl

/-- With non-faulting hooks the thinking-notification step always returns. -/
theorem thinkingStep_ok (cb : AgentCallbacks) (hcb : neverFaults cb)
    (reasoning : Option String) :
    (match reasoning with
      | some r => if r = "" then Except.ok () else fire1 cb.on_thinking r
      | none => Except.ok ()) = Except.ok () := by
  cases reasoning with
  | none => rfl
  | some r =>
    show (if r = "" then Except.ok () else fire1 cb.on_thinking r) = Except.ok ()
    by_cases hr : r = ""
    · rw [if_pos hr]
    · rw [if_neg hr]
      exact hcb.2.1 r

/-- With non-faulting hooks and a model that always requests at least one
tool call, the loop burns its whole budget, making one chat-completion call
per fuel unit, and ends in the step-budget failure. -/
theorem runLoop_budget {σ : Type} (model : ChatModel) (reg : ToolRegistry σ)
    (cb : AgentCallbacks) (hcb : neverFaults cb)
    (hmodel : ∀ msgs ts, (model msgs ts).tool_calls ≠ []) (fuel : Nat) :
    ∀ (msgs : List Message) (s : σ) (calls : Nat),
      (runLoop model reg cb fuel msgs s calls).1 = RunOutcome.stepBudgetExceeded ∧
      (runLoop model reg cb fuel msgs s calls).2.2.2 = calls + fuel := by
  induction fuel with
  | zero => intro msgs s calls; exact ⟨rfl, rfl⟩
  | succ fuel ih =>
    intro msgs s calls
    simp only [runLoop, hcb.1,
      thinkingStep_ok cb hcb (model msgs reg.as_openai_tools).reasoning_content]
    have hempty : (model msgs reg.as_openai_tools).tool_calls.isEmpty = false := by
      cases htc : (model msgs reg.as_openai_tools).tool_calls with
      | nil => exact absurd htc (hmodel _ _)
      | cons a l => rfl
    rw [if_neg (by simp [hempty])]
    cases hexec : execToolCalls reg cb (model msgs reg.as_openai_tools).tool_calls
        (msgs ++ [assistantRecord (model msgs reg.as_openai_tools)]) s with
    | mk fault rest2 =>
      obtain ⟨msgs2, s2⟩ := rest2
      have hfault : fault = none := by
        have := execToolCalls_nofault reg cb hcb (model msgs reg.as_openai_tools).tool_calls
          (msgs ++ [assistantRecord (model msgs reg.as_openai_tools)]) s
        rw [hexec] at this
        exact this
      subst hfault
      obtain ⟨b1, b2⟩ := ih msgs2 s2 (calls + 1)
      refine ⟨b1, ?_⟩
      rw [b2]
      omega

/-- With non-faulting hooks the loop's behaviour does not depend on which
hooks are installed. -/
theorem runLoop_cb_eq {σ : Type} (model : ChatModel) (reg : ToolRegistry σ)
    (cb cb' : AgentCallbacks) (hcb : neverFaults cb) (hcb' : neverFaults cb') (fuel : Nat) :
    ∀ (msgs : List Message) (s : σ) (calls : Nat),
      runLoop model reg cb fuel msgs s calls = runLoop model reg cb' fuel msgs s calls := by
  induction fuel with
  | zero => intro msgs s calls; rfl
  | succ fuel ih =>
    intro msgs s calls
    simp only [runLoop, hcb.1, hcb'.1,
      thinkingStep_ok cb hcb (model msgs reg.as_openai_tools).reasoning_content,
      thinkingStep_ok cb' hcb' (model msgs reg.as_openai_tools).reasoning_content]
    by_cases hempty : (model msgs reg.as_openai_tools).tool_calls.isEmpty
    · rw [if_pos hempty, if_pos hempty]
    · rw [if_neg hempty, if_neg hempty]
      rw [execToolCalls_cb_eq reg cb cb' hcb hcb' (model msgs reg.as_openai_tools).tool_calls
        (msgs ++ [assistantRecord (model msgs reg.as_openai_tools)]) s]
      cases hexec : execToolCalls reg cb' (model msgs reg.as_openai_tools).tool_calls
          (msgs ++ [assistantRecord (model msgs reg.as_openai_tools)]) s with
      | mk fault rest2 =>
        obtain ⟨msgs2, s2⟩ := rest2
        cases fault with
        | some e => rfl
        | none => exact ih msgs2 s2 (calls + 1)

/-- **C6.** With `max_steps = K` (K ≥ 1), non-faulting hooks, and a chat
model whose every response carries at least one tool call, `run` makes
exactly K chat-completion calls, resolves every step's tool calls (the final
conversation is fully answered), and then fails with the step-budget error
instead of returning a text result. -/
theorem C6_step_budget {σ : Type} (model : ChatModel) (reg : ToolRegistry σ)
    (cb : AgentCallbacks) (system_prompt user_input : String) (s : σ) (K : Nat)
    (hK : 1 ≤ K) (hcb : neverFaults cb)
    (hmodel : ∀ msgs ts, (model msgs ts).tool_calls ≠ []) :
    (NanoCodeAgent.run model reg cb system_prompt K user_input s).1
        = RunOutcome.stepBudgetExceeded ∧
    (NanoCodeAgent.run model reg cb system_prompt K user_input s).2.2.2 = K ∧
    wlClosed (NanoCodeAgent.run model reg cb system_prompt K user_input s).2.1 = true := by
  simp only [NanoCodeAgent.run]
  obtain ⟨b1, b2⟩ := runLoop_budget model reg cb hcb hmodel K
    [.system system_prompt, .user user_input] s 0
  have hinit : wlClosed [Message.system system_prompt, Message.user user_input] = true := rfl
  obtain ⟨w1, w2⟩ := runLoop_wellLinked model reg cb K
    [.system system_prompt, .user user_input] s 0 hinit
  refine ⟨b1, by rw [b2]; omega, ?_⟩
  apply w2
  intro e hcon
  rw [b1] at hcon
  exact RunOutcome.noConfusion hcon

/-- Witness for C6: a model that always requests `list_files` with
`max_steps = 2` makes exactly 2 model calls and fails with the step-budget
error. -/
theorem C6_step_budget_witness :
    (NanoCodeAgent.run (σ := Nat)
        (fun _ _ => ⟨Json.null, none, [⟨"call_loop", "list_files", "\x7b\x7d",
          .ok (Json.obj [])⟩]⟩)
        emptyDemoReg ⟨none, none, none, none⟩ "sys" 2 "loop forever" 0).1
      = RunOutcome.stepBudgetExceeded ∧
    (NanoCodeAgent.run (σ := Nat)
        (fun _ _ => ⟨Json.null, none, [⟨"call_loop", "list_files", "\x7b\x7d",
          .ok (Json.obj [])⟩]⟩)
        emptyDemoReg ⟨none, none, none, none⟩ "sys" 2 "loop forever" 0).2.2.2 = 2 := by
  obtain ⟨h1, h2, h3⟩ := C6_step_budget (σ := Nat)
    (fun _ _ => ⟨Json.null, none, [⟨"call_loop", "list_files", "\x7b\x7d",
      .ok (Json.obj [])⟩]⟩)
    emptyDemoReg ⟨none, none, none, none⟩ "sys" "loop forever" 0 2
    (by omega)
    ⟨fun a => rfl, fun a => rfl, fun a b => rfl, fun a b => rfl⟩
    (fun _ _ => List.cons_ne_nil _ _)
  exact ⟨h1, h2⟩

/-- **C7.** For any run of the agent loop, the final conversation starts
with exactly one system message, extends the initial
`[system, user]` messages (append-only, and only non-system messages are
appended), and every tool message answers — in order, one per call — a tool
call of the immediately preceding assistant message; no orphaned tool
messages exist. -/
theorem C7_conversation_invariants {σ : Type} (model : ChatModel) (reg : ToolRegistry σ)
    (cb : AgentCallbacks) (system_prompt user_input : String) (s : σ) (K : Nat) :
    startsWithOneSystem (NanoCodeAgent.run model reg cb system_prompt K user_input s).2.1
        = true ∧
    wellLinked (NanoCodeAgent.run model reg cb system_prompt K user_input s).2.1 = true ∧
    ∃ rest, (NanoCodeAgent.run model reg cb system_prompt K user_input s).2.1
        = Message.system system_prompt :: Message.user user_input :: rest := by
  simp only [NanoCodeAgent.run]
  obtain ⟨suffix, hs1, hs2⟩ := runLoop_append model reg cb K
    [.system system_prompt, .user user_input] s 0
  have hinit : wlClosed [Message.system system_prompt, Message.user user_input] = true := rfl
  obtain ⟨w1, w2⟩ := runLoop_wellLinked model reg cb K
    [.system system_prompt, .user user_input] s 0 hinit
  refine ⟨?_, w1, ⟨suffix, by rw [hs1]; rfl⟩⟩
  rw [hs1]
  simp only [List.cons_append, List.nil_append, startsWithOneSystem, List.all_cons]
  simp [nonSystem, hs2]

/-- **C9 (counterexample).** Observer hooks are not fault-isolated:
replacing the unset status hook by one that raises turns a run that returned
the text "hi" into one that propagates the fault out of `run`, changing the
control flow and returned value. -/
theorem C9_counterexample :
    (NanoCodeAgent.run (σ := Nat) (fun _ _ => ⟨Json.str "hi", none, []⟩) emptyDemoReg
        ⟨none, none, none, none⟩ "sys" 5 "hello" 0).1 = RunOutcome.done "hi" ∧
    (NanoCodeAgent.run (σ := Nat) (fun _ _ => ⟨Json.str "hi", none, []⟩) emptyDemoReg
        ⟨some (fun _ => Except.error "boom"), none, none, none⟩ "sys" 5 "hello" 0).1
      = RunOutcome.exn "boom" := ⟨rfl, rfl⟩

/-- **C9 (amended).** Observer hooks are notification-only as long as they
return: for any two assignments of non-faulting hooks, the run outcome,
conversation, final state and model-call count are identical; but a fault
raised inside a hook propagates out of `run` (shown for the status hook,
which fires before the first model call). -/
theorem C9_hooks_amended {σ : Type} (model : ChatModel) (reg : ToolRegistry σ)
    (cb cb' : AgentCallbacks) (system_prompt user_input : String) (s : σ) (K : Nat)
    (hcb : neverFaults cb) (hcb' : neverFaults cb') :
    NanoCodeAgent.run model reg cb system_prompt K user_input s
      = NanoCodeAgent.run model reg cb' system_prompt K user_input s ∧
    (∀ (f : String → HookResult) (e : String), f "Thinking..." = .error e → 1 ≤ K →
      (NanoCodeAgent.run model reg { cb with on_status := some f }
        system_prompt K user_input s).1 = RunOutcome.exn e) := by
  constructor
  · exact runLoop_cb_eq model reg cb cb' hcb hcb' K _ s 0
  · intro f e hf hK
    obtain ⟨k, rfl⟩ : ∃ k, K = k + 1 := ⟨K - 1, by omega⟩
    have hfire : fire1 ({ cb with on_status := some f } : AgentCallbacks).on_status
        "Thinking..." = .error e := by simp [fire1, hf]
    simp only [NanoCodeAgent.run, runLoop, hfire]

/-- Witness for C9 (amended): swapping an unset thinking hook for a
returning one leaves the run identical, and installing a raising status hook
makes `run` end in that very exception. -/
theorem C9_hooks_amended_witness :
    NanoCodeAgent.run (σ := Nat) (fun _ _ => ⟨Json.str "hi", none, []⟩) emptyDemoReg
        ⟨none, none, none, none⟩ "sys" 5 "hello" 0
      = NanoCodeAgent.run (σ := Nat) (fun _ _ => ⟨Json.str "hi", none, []⟩) emptyDemoReg
        ⟨none, some (fun _ => Except.ok ()), none, none⟩ "sys" 5 "hello" 0 ∧
    (NanoCodeAgent.run (σ := Nat) (fun _ _ => ⟨Json.str "hi", none, []⟩) emptyDemoReg
        ⟨some (fun _ => Except.error "kaboom"), none, none, none⟩ "sys" 5 "hello" 0).1
      = RunOutcome.exn "kaboom" := by
  constructor
  · exact (C9_hooks_amended (σ := Nat) (fun _ _ => ⟨Json.str "hi", none, []⟩) emptyDemoReg
      ⟨none, none, none, none⟩ ⟨none, some (fun _ => Except.ok ()), none, none⟩
      "sys" "hello" 0 5
      ⟨fun a => rfl, fun a => rfl, fun a b => rfl, fun a b => rfl⟩
      ⟨fun a => rfl, fun a => rfl, fun a b => rfl, fun a b => rfl⟩).1
  · exact (C9_hooks_amended (σ := Nat) (fun _ _ => ⟨Json.str "hi", none, []⟩) emptyDemoReg
      ⟨none, none, none, none⟩ ⟨none, none, none, none⟩ "sys" "hello" 0 5
      ⟨fun a => rfl, fun a => rfl, fun a b => rfl, fun a b => rfl⟩
      ⟨fun a => rfl, fun a => rfl, fun a b => rfl, fun a b => rfl⟩).2
      (fun _ => Except.error "kaboom") "kaboom" rfl (by omega)
